import Mathlib

/-!
IBM 5110 keyboard translator (KBD5110)

A shallow embedding of the two translator programs of the repository,
`CODE/5110KBD.c` (Arduino Nano) and
`CODE/main_ESP32_IBM5110_serial_translator.c` (ESP32), followed by theorems
about the byte-to-scan-code translation, the parity rule, the `^..^` parsed
keys and the EXECUTE gate.

Conventions of the embedding:

* C `int` variables are `Int` (all values stay within -1 .. 900, far from any
  overflow of a 16-bit `int`); the two flags that only ever hold `TRUE` or
  `FALSE` (`parse_key_mode`, `interpret_crlf_as_execute`) are `Bool`.
* A received byte is a `Fin 256`: `Serial.read()` after `Serial.available() > 0`
  and `getc(stdin)` different from `EOF` both return a value in 0 .. 255.
* `char parse_key_buffer[100]` is a list of exactly 100 cells holding the byte
  values 0 .. 255. Whether `char` is signed plays no role: the buffer is
  only compared with ASCII letters and digits, all below 128.
* A store into `parse_key_buffer` outside 0 .. 99 is undefined behaviour in C;
  the per-byte step returns `none` there.
-/

set_option maxRecDepth 100000

namespace KBD5110

/-- The two programs of the repository. -/
inductive Board where
  | arduino
  | esp32
deriving DecidableEq, Repr

/-- The constant `#define TRUE 1`. -/
def TRUE : Int := 1

/-- The constant `#define FALSE 0`. -/
def FALSE : Int := 0

/-- The constant `#define KEY_EXECUTE 0xB2`, the scan code of the EXECUTE key. -/
def KEY_EXECUTE : Int := 0xB2

/-- The constant `#define MAX_PARSE_KEY_BUFFER_LENGTH 100`. -/
def MAX_PARSE_KEY_BUFFER_LENGTH : Int := 100

/-- The initializer of `ascii_to_5110` in `5110KBD.c`, one pair per physical
line of the file (lines 115 .. 372), in file order. The first component is the
value written on the line. The second component is `true` when the `//` comment
of the line ends in a backslash (followed by blanks only): lines 170 (the row
labelled `55  37  7`) and 208 (the row labelled `92  5C`). -/
def arduino_rows : List (Int × Bool) := [
  (0x00, false), (0xDF, false), (0x91, false), (0x00, false), (0x00, false), (0x00, false),
  (0x00, false), (0x93, false), (0x34, false), (0x00, false), (0x00, false), (0x00, false),
  (0x36, false), (KEY_EXECUTE, false), (0x00, false), (0x34, false), (0xB4, false), (0x00, false),
  (0x96, false), (0x00, false), (0x95, false), (0x00, false), (0x00, false), (0x00, false),
  (0x00, false), (0x00, false), (0x4F, false), (0xB6, false), (0x00, false), (0x00, false),
  (0x00, false), (0x00, false), (0x39, false), (0x00, false), (0x4C, false), (0x30, false),
  (0x4B, false), (0x00, false), (0x4A, false), (0xFA, false), (0x3A, false), (0xBA, false),
  (0x9D, false), (0x99, false), (0xF9, false), (0x9B, false), (0x89, false), (0x00, false),
  (0x8F, false), (0x4D, false), (0x0F, false), (0xCF, false), (0xAF, false), (0x2F, false),
  (0xEF, false), (0x6F, true), (0x00, false), (0x7F, false), (0xFF, false), (0x88, false),
  (0xF8, false), (0xCE, false), (0x32, false), (0x6E, false), (0x0C, false), (0x70, false),
  (0x0B, false), (0xE9, false), (0xA9, false), (0xAB, false), (0xAD, false), (0x2B, false),
  (0xEB, false), (0x6B, false), (0xFD, false), (0x7B, false), (0xFB, false), (0x8B, false),
  (0x79, false), (0x69, false), (0x8D, false), (0x3D, false), (0x0D, false), (0x2D, false),
  (0xCB, false), (0xED, false), (0x7D, false), (0x29, false), (0xCD, false), (0xC9, false),
  (0x6D, false), (0x09, false), (0x00, false), (0x00, true), (0x00, false), (0x00, false),
  (0x00, false), (0x00, false), (0x00, false), (0x0B, false), (0xE9, false), (0xA9, false),
  (0xAB, false), (0xAD, false), (0x2B, false), (0xEB, false), (0x6B, false), (0xFD, false),
  (0x7B, false), (0xFB, false), (0x8B, false), (0x79, false), (0x69, false), (0x8D, false),
  (0x3D, false), (0x0D, false), (0x2D, false), (0xCB, false), (0xED, false), (0x7D, false),
  (0x29, false), (0xCD, false), (0xC9, false), (0x6D, false), (0x09, false), (0x00, false),
  (0x00, false), (0x00, false), (0x96, false), (0x34, false), (0x00, false), (0x00, false),
  (0x00, false), (0x00, false), (0x00, false), (0x00, false), (0x00, false), (0x00, false),
  (0x00, false), (0x00, false), (0x00, false), (0x00, false), (0x00, false), (0x00, false),
  (0x00, false), (0x00, false), (0x00, false), (0x00, false), (0x00, false), (0x00, false),
  (0x00, false), (0x00, false), (0x00, false), (0x00, false), (0x00, false), (0x00, false),
  (0x00, false), (0x00, false), (0x00, false), (0x00, false), (0x00, false), (0x00, false),
  (0x00, false), (0x00, false), (0x00, false), (0x00, false), (0x00, false), (0x00, false),
  (0x00, false), (0x00, false), (0x00, false), (0x00, false), (0x00, false), (0x00, false),
  (0x00, false), (0x00, false), (0x00, false), (0x00, false), (0x00, false), (0x00, false),
  (0x00, false), (0x00, false), (0x00, false), (0x00, false), (0x00, false), (0x00, false),
  (0x00, false), (0x00, false), (0x00, false), (0x00, false), (0x00, false), (0x00, false),
  (0x00, false), (0x00, false), (0x00, false), (0x00, false), (0x00, false), (0x00, false),
  (0x00, false), (0x00, false), (0x00, false), (0x00, false), (0x00, false), (0x00, false),
  (0x00, false), (0x00, false), (0x00, false), (0x00, false), (0x00, false), (0x00, false),
  (0x00, false), (0x00, false), (0x00, false), (0x00, false), (0x00, false), (0x00, false),
  (0x00, false), (0x00, false), (0x00, false), (0x00, false), (0x00, false), (0x00, false),
  (0x00, false), (0x00, false), (0x00, false), (0x00, false), (0x00, false), (0x00, false),
  (0x00, false), (0x00, false), (0x00, false), (0x00, false), (0x00, false), (0x00, false),
  (0x00, false), (0x00, false), (0x00, false), (0x00, false), (0x00, false), (0x00, false),
  (0x00, false), (0x00, false), (0x00, false), (0x00, false), (0x00, false), (0x00, false),
  (0x00, false), (0x00, false), (0x00, false), (0x00, false), (0x00, false), (0x00, false),
  (0x00, false), (0x00, false), (0x00, false), (0x00, false), (0x00, false), (0x00, false)
]

/-- Line splicing as done by the C preprocessor of GCC (the compiler of the
Arduino toolchain): a line ending in a backslash, even when blanks follow the
backslash, is joined with the next line before comments are removed. A `//`
comment ending in a backslash therefore swallows the next physical line, whose
value is then no element of the initializer. `in_comment` tells whether the
current line continues a comment. -/
def splice_from (in_comment : Bool) : List (Int × Bool) → List Int
  | [] => []
  | (v, ends_in_backslash) :: rest =>
    if in_comment then splice_from ends_in_backslash rest
    else v :: splice_from ends_in_backslash rest

/-- The initializer of `ascii_to_5110` in
`main_ESP32_IBM5110_serial_translator.c` (lines 57 .. 312). No comment of this
table ends in a backslash (the two rows that mention one carry the words
`backslash` and `BACKSLASH` after it), so every line is an element. -/
def esp32_table : List Int := [
  0x00, 0xDF, 0x91, 0x00, 0x00, 0x00, 0x00, 0x93,   -- 0..7
  0x34, 0x00, KEY_EXECUTE, 0x00, 0x36, KEY_EXECUTE, 0x00, 0x34,   -- 8..15
  0xB4, 0x00, 0x96, 0x00, 0x95, 0x00, 0x00, 0x00,   -- 16..23
  0x00, 0x00, 0x4F, 0xB6, 0x00, 0x00, 0x00, 0x00,   -- 24..31
  0x39, 0x00, 0x4C, 0x30, 0x4B, 0x00, 0x4A, 0xFA,   -- 32..39
  0x3A, 0xBA, 0x9D, 0x99, 0xF9, 0x9B, 0x89, 0x00,   -- 40..47
  0x8F, 0x4D, 0x0F, 0xCF, 0xAF, 0x2F, 0xEF, 0x6F,   -- 48..55
  0x7F, 0xFF, 0x88, 0xF8, 0xCE, 0x32, 0x6E, 0x0C,   -- 56..63
  0x70, 0x0B, 0xE9, 0xA9, 0xAB, 0xAD, 0x2B, 0xEB,   -- 64..71
  0x6B, 0xFD, 0x7B, 0xFB, 0x8B, 0x79, 0x69, 0x8D,   -- 72..79
  0x3D, 0x0D, 0x2D, 0xCB, 0xED, 0x7D, 0x29, 0xCD,   -- 80..87
  0xC9, 0x6D, 0x09, 0x00, 0x00, 0x00, 0x00, 0x00,   -- 88..95
  0x00, 0x0B, 0xE9, 0xA9, 0xAB, 0xAD, 0x2B, 0xEB,   -- 96..103
  0x6B, 0xFD, 0x7B, 0xFB, 0x8B, 0x79, 0x69, 0x8D,   -- 104..111
  0x3D, 0x0D, 0x2D, 0xCB, 0xED, 0x7D, 0x29, 0xCD,   -- 112..119
  0xC9, 0x6D, 0x09, 0x00, 0x00, 0x00, 0x96, 0x34,   -- 120..127
  0x00, 0x00, 0x00, 0x00, 0x00, 0x00, 0x00, 0x00,   -- 128..135
  0x00, 0x00, 0x00, 0x00, 0x00, 0x00, 0x00, 0x00,   -- 136..143
  0x00, 0x00, 0x00, 0x00, 0x00, 0x00, 0x00, 0x00,   -- 144..151
  0x00, 0x00, 0x00, 0x00, 0x00, 0x00, 0x00, 0x00,   -- 152..159
  0x00, 0x00, 0x00, 0x00, 0x00, 0x00, 0x00, 0x00,   -- 160..167
  0x00, 0x00, 0x00, 0x00, 0x00, 0x00, 0x00, 0x00,   -- 168..175
  0x00, 0x00, 0x00, 0x00, 0x00, 0x00, 0x00, 0x00,   -- 176..183
  0x00, 0x00, 0x00, 0x00, 0x00, 0x00, 0x00, 0x00,   -- 184..191
  0x00, 0x00, 0x00, 0x00, 0x00, 0x00, 0x00, 0x00,   -- 192..199
  0x00, 0x00, 0x00, 0x00, 0x00, 0x00, 0x00, 0x00,   -- 200..207
  0x00, 0x00, 0x00, 0x00, 0x00, 0x00, 0x00, 0x00,   -- 208..215
  0x00, 0x00, 0x00, 0x00, 0x00, 0x00, 0x00, 0x00,   -- 216..223
  0x00, 0x00, 0x00, 0x00, 0x00, 0x00, 0x00, 0x00,   -- 224..231
  0x00, 0x00, 0x00, 0x00, 0x00, 0x00, 0x00, 0x00,   -- 232..239
  0x00, 0x00, 0x00, 0x00, 0x00, 0x00, 0x00, 0x00,   -- 240..247
  0x00, 0x00, 0x00, 0x00, 0x00, 0x00, 0x00, 0x00   -- 248..255
]

/-- The array `static const int ascii_to_5110[]` as the compiler sees it. -/
def ascii_to_5110 : Board → List Int
  | .arduino => splice_from false arduino_rows
  | .esp32 => esp32_table

/-- The read `ascii_to_5110[i]`. Both arrays have exactly 256 elements
(`ascii_to_5110_length`), so for `i < 256` the default is never used. -/
def table_at (board : Board) (i : Nat) : Int :=
  (ascii_to_5110 board).getD i 0

/-- The eight mask tests `if ((v & 0x80) == 0x80) ++bit_count;` ...
`if ((v & 0x01) == 0x01) ++bit_count;`, written twice in each program (in the
startup loop and after a parsed key). -/
def bit_count (v : Int) : Nat :=
  (if Int.land v 0x80 = 0x80 then 1 else 0) +
  (if Int.land v 0x40 = 0x40 then 1 else 0) +
  (if Int.land v 0x20 = 0x20 then 1 else 0) +
  (if Int.land v 0x10 = 0x10 then 1 else 0) +
  (if Int.land v 0x08 = 0x08 then 1 else 0) +
  (if Int.land v 0x04 = 0x04 then 1 else 0) +
  (if Int.land v 0x02 = 0x02 then 1 else 0) +
  (if Int.land v 0x01 = 0x01 then 1 else 0)

/-- The parity computed from the mask tests: start from `FALSE`, and
`if ((bit_count % 2) != 0)` store `TRUE`. -/
def odd_parity (v : Int) : Int :=
  if bit_count v % 2 ≠ 0 then TRUE else FALSE

/-- The startup loop `int i = 0; while (i < 256) { ... ++i; }` of `setup` and
`app_main`, filling `parity_values`. `fuel` bounds the number of iterations;
256 is enough for the loop to leave by its own test. -/
def setup_loop (board : Board) : Nat → Nat → List Int → List Int
  | 0, _, parity_values => parity_values
  | fuel + 1, i, parity_values =>
    if i < 256 then
      let temp_value := table_at board i
      setup_loop board fuel (i + 1) (parity_values.set i (odd_parity temp_value))
    else parity_values

/-- The array `static int parity_values[256]` after startup: zero-initialised
by C, then filled by the startup loop. -/
def parity_values (board : Board) : List Int :=
  setup_loop board 256 0 (List.replicate 256 0)

/-- The read `parity_values[i]`. -/
def parity_at (board : Board) (i : Nat) : Int :=
  (parity_values board).getD i 0

/-- Number of set bits among the 8 least-significant bits of `n`. -/
def popcount (n : Nat) : Nat :=
  ((List.range 8).filter (fun k => n.testBit k)).length

/-- The array `char parse_key_buffer[MAX_PARSE_KEY_BUFFER_LENGTH]`: exactly
100 cells. -/
structure Buffer where
  cells : List Nat
  size_eq : cells.length = 100
deriving DecidableEq

/-- The read `parse_key_buffer[i]`; `i` is 0 or 1 in the programs. -/
def Buffer.read (buf : Buffer) (i : Nat) : Nat :=
  buf.cells.getD i 0

/-- The store `parse_key_buffer[i] = v`. The caller checks `i < 100`. -/
def Buffer.write (buf : Buffer) (i : Nat) (v : Nat) : Buffer :=
  ⟨buf.cells.set i v, by simp [buf.size_eq]⟩

/-- A zero-initialised buffer, as C leaves a global array without initializer. -/
def Buffer.zero : Buffer :=
  ⟨List.replicate 100 0, by simp⟩

/-- The global variables that live across received bytes. -/
structure State where
  parse_key_mode : Bool
  parse_key_buffer : Buffer
  parse_key_buffer_index : Int
  interpret_crlf_as_execute : Bool
deriving DecidableEq

/-- The globals as their initializers leave them: `parse_key_mode = FALSE`,
`parse_key_buffer_index = -1`, `interpret_crlf_as_execute = TRUE`. -/
def initial : State :=
  { parse_key_mode := false
    parse_key_buffer := Buffer.zero
    parse_key_buffer_index := -1
    interpret_crlf_as_execute := true }

/-- What one received byte makes the program do to the outside: a blocking
`delay(n)` / `vTaskDelay(n)`, or one strobe sequence for the pair
(`out_scan_code`, `out_parity`). -/
inductive Out where
  | delay (n : Nat)
  | key (out_scan_code : Int) (out_parity : Int)
deriving DecidableEq, Repr

/-- The variables of one pass through the loop body: the persistent globals,
the globals `out_scan_code` and `out_parity`, and the delays performed so far
in this pass. -/
structure Frame where
  state : State
  out_scan_code : Int
  out_parity : Int
  delays : List Nat
deriving DecidableEq

/-- The assignments `out_scan_code = -1; out_parity = -1;` under the comment
"Assume no input...". -/
def entry (s : State) : Frame :=
  { state := s, out_scan_code := -1, out_parity := -1, delays := [] }

/-- First statement of the loop body, `if (parse_key_mode == TRUE) { ... }
else { ... }`: in parse-key mode store the byte and step the index (stepping
back when it reaches the capacity); otherwise look the byte up in
`ascii_to_5110` and in the parity table, and drop an EXECUTE when
`interpret_crlf_as_execute == FALSE`. `parity_lookup i` is the parity the
program reads for index `i`. -/
def loop_translate (board : Board) (parity_lookup : Nat → Int) (f : Frame)
    (incomingByte : Fin 256) : Option Frame :=
  if f.state.parse_key_mode = true then
    if 0 ≤ f.state.parse_key_buffer_index ∧
        f.state.parse_key_buffer_index < MAX_PARSE_KEY_BUFFER_LENGTH then
      let stored := f.state.parse_key_buffer.write
        f.state.parse_key_buffer_index.toNat incomingByte.val
      let next := f.state.parse_key_buffer_index + 1
      some { f with
        state := { f.state with
          parse_key_buffer := stored
          parse_key_buffer_index :=
            if next ≥ MAX_PARSE_KEY_BUFFER_LENGTH then next - 1 else next }
        out_scan_code := 0x00 }
    else none
  else
    let code := table_at board incomingByte.val
    let par := parity_lookup incomingByte.val
    if code = KEY_EXECUTE ∧ f.state.interpret_crlf_as_execute = false then
      some { f with out_scan_code := -1, out_parity := -1 }
    else
      some { f with out_scan_code := code, out_parity := par }

/-- What the `if` / `else if` chain over `parse_key_buffer[0]` and
`parse_key_buffer[1]` leaves behind. -/
structure Parsed where
  out_scan_code : Int
  delays : List Nat
  interpret_crlf_as_execute : Bool
deriving DecidableEq

/-- The chain "interpret the buffered parse_key". `c0` and `c1` are
`parse_key_buffer[0]` and `parse_key_buffer[1]`; `out_scan_code` and `gate` are
the values of `out_scan_code` and `interpret_crlf_as_execute` on entry. The
`SU` and `SD` branches exist in `5110KBD.c` only. The `E0` and `E1` branches
assign the flag and nothing else. -/
def interpret_parse_key (board : Board) (c0 c1 : Nat) (out_scan_code : Int)
    (gate : Bool) : Parsed :=
  if c0 = 76 ∧ c1 = 69 then ⟨0x34, [], gate⟩                          -- LE
  else if c0 = 82 ∧ c1 = 73 then ⟨0xB4, [], gate⟩                     -- RI
  else if c0 = 85 ∧ c1 = 80 then ⟨0xDF, [], gate⟩                     -- UP
  else if c0 = 68 ∧ c1 = 79 then ⟨0x4F, [], gate⟩                     -- DO
  else if board = Board.arduino ∧ c0 = 83 ∧ c1 = 85 then ⟨0xDE, [], gate⟩  -- SU
  else if board = Board.arduino ∧ c0 = 83 ∧ c1 = 68 then ⟨0x4E, [], gate⟩  -- SD
  else if c0 = 72 ∧ c1 = 79 then ⟨0x36, [], gate⟩                     -- HO
  else if c0 = 69 ∧ c1 = 88 then ⟨0xB2, [], gate⟩                     -- EX
  else if c0 = 65 ∧ c1 = 84 then ⟨0xB6, [], gate⟩                     -- AT
  else if c0 = 67 ∧ c1 = 65 then ⟨0x96, [], gate⟩                     -- CA
  else if c0 = 67 ∧ c1 = 80 then ⟨0x91, [], gate⟩                     -- CP
  else if c0 = 67 ∧ c1 = 77 then ⟨0x93, [], gate⟩                     -- CM
  else if c0 = 67 ∧ c1 = 83 then ⟨0x95, [], gate⟩                     -- CS
  else if c0 = 68 ∧ c1 = 49 then ⟨-1, [100], gate⟩                    -- D1
  else if c0 = 68 ∧ c1 = 50 then ⟨-1, [200], gate⟩                    -- D2
  else if c0 = 68 ∧ c1 = 51 then ⟨-1, [300], gate⟩                    -- D3
  else if c0 = 68 ∧ c1 = 52 then ⟨-1, [400], gate⟩                    -- D4
  else if c0 = 68 ∧ c1 = 53 then ⟨-1, [500], gate⟩                    -- D5
  else if c0 = 68 ∧ c1 = 54 then ⟨-1, [600], gate⟩                    -- D6
  else if c0 = 68 ∧ c1 = 55 then ⟨-1, [700], gate⟩                    -- D7
  else if c0 = 68 ∧ c1 = 56 then ⟨-1, [800], gate⟩                    -- D8
  else if c0 = 68 ∧ c1 = 57 then ⟨-1, [900], gate⟩                    -- D9
  else if c0 = 69 ∧ c1 = 48 then ⟨out_scan_code, [], false⟩           -- E0
  else if c0 = 69 ∧ c1 = 49 then ⟨out_scan_code, [], true⟩            -- E1
  else ⟨-1, [], gate⟩

/-- Second statement of the loop body, `if (out_scan_code == 0x00) { ... }`:
on `^` (94) leave parse-key mode and interpret the buffer, recomputing the
parity when `out_scan_code >= 0`, or enter parse-key mode; on any other byte
set both outputs to -1. -/
def loop_parse_key (board : Board) (f : Frame) (incomingByte : Fin 256) : Frame :=
  if f.out_scan_code = 0x00 then
    if incomingByte.val = 94 then
      if f.state.parse_key_mode = true then
        let parsed := interpret_parse_key board
          (f.state.parse_key_buffer.read 0) (f.state.parse_key_buffer.read 1)
          f.out_scan_code f.state.interpret_crlf_as_execute
        { state := { f.state with
            parse_key_mode := false
            parse_key_buffer_index := -1
            interpret_crlf_as_execute := parsed.interpret_crlf_as_execute }
          out_scan_code := parsed.out_scan_code
          out_parity :=
            if parsed.out_scan_code ≥ 0 then odd_parity parsed.out_scan_code
            else f.out_parity
          delays := f.delays ++ parsed.delays }
      else
        { f with
          state := { f.state with parse_key_mode := true, parse_key_buffer_index := 0 }
          out_scan_code := -1
          out_parity := -1 }
    else { f with out_scan_code := -1, out_parity := -1 }
  else f

/-- Third statement of the loop body, `if (out_scan_code >= 0) { ... }`: the
pair handed to the strobe sequence, if any. -/
def loop_transmit (f : Frame) : List Out :=
  if f.out_scan_code ≥ 0 then [Out.key f.out_scan_code f.out_parity] else []

/-- Everything one pass does to the outside, in program order: the delays of
the parsed key, then the strobe sequence. -/
def outputs (f : Frame) : List Out :=
  f.delays.map Out.delay ++ loop_transmit f

/-- The first two statements of the loop body for one received byte. -/
def loop_body_with (board : Board) (parity_lookup : Nat → Int) (f : Frame)
    (incomingByte : Fin 256) : Option Frame :=
  (loop_translate board parity_lookup f incomingByte).map
    (fun f1 => loop_parse_key board f1 incomingByte)

/-- One received byte, from the reset of `out_scan_code` and `out_parity` to
the end of the strobe sequence: the new globals and what was done to the
outside. In `main_ESP32_IBM5110_serial_translator.c` the reset precedes every
`getc`; in `5110KBD.c` it precedes the `while (Serial.available() > 0)` loop,
so a byte may find the values left by the previous byte: `entry_irrelevant`
shows that they change nothing. -/
def step_with (board : Board) (parity_lookup : Nat → Int) (s : State)
    (incomingByte : Fin 256) : Option (State × List Out) :=
  (loop_body_with board parity_lookup (entry s) incomingByte).map
    (fun f => (f.state, outputs f))

/-- The program as written: the parity of a looked-up byte is read from
`parity_values`. -/
def step (board : Board) (s : State) (incomingByte : Fin 256) :
    Option (State × List Out) :=
  step_with board (parity_at board) s incomingByte

/-- A stream of received bytes, one `step` after the other. -/
def run_with (board : Board) (parity_lookup : Nat → Int) :
    State → List (Fin 256) → Option (State × List Out)
  | s, [] => some (s, [])
  | s, b :: rest =>
    match step_with board parity_lookup s b with
    | none => none
    | some (s1, out1) =>
      match run_with board parity_lookup s1 rest with
      | none => none
      | some (s2, out2) => some (s2, out1 ++ out2)

/-- The program on a stream of received bytes. -/
def run (board : Board) (s : State) (input : List (Fin 256)) :
    Option (State × List Out) :=
  run_with board (parity_at board) s input

/-- Variant of the program in which the parity of a looked-up byte is computed
on demand from the scan code instead of being read from `parity_values`. -/
def run_on_demand (board : Board) (s : State) (input : List (Fin 256)) :
    Option (State × List Out) :=
  run_with board (fun i => odd_parity (table_at board i)) s input

/-- The pairs handed to the strobe sequence, in order. -/
def events : List Out → List (Int × Int)
  | [] => []
  | Out.key c p :: rest => (c, p) :: events rest
  | Out.delay _ :: rest => events rest

/-- The pair (`c`, `p`) is a scan code with its odd-parity bit: `c` is an
8-bit value, `p` is 0 or 1, and `p` is 1 exactly when the number of set bits
among the 8 low bits of `c` is odd. -/
def OddParityPair (c p : Int) : Prop :=
  0 ≤ c ∧ c ≤ 255 ∧ (p = 0 ∨ p = 1) ∧ (p = 1 ↔ popcount c.toNat % 2 = 1)

/-- In parse-key mode the next store into `parse_key_buffer` is within the
array. -/
def InBounds (s : State) : Prop :=
  s.parse_key_mode = true →
    0 ≤ s.parse_key_buffer_index ∧ s.parse_key_buffer_index < MAX_PARSE_KEY_BUFFER_LENGTH

/-- What the chain over the buffer yields when `^` arrives in parse-key mode in
state `s`: the `^` has been stored at `parse_key_buffer_index` and
`out_scan_code` is 0x00. -/
def parsed_on_close (board : Board) (s : State) : Parsed :=
  interpret_parse_key board
    ((s.parse_key_buffer.write s.parse_key_buffer_index.toNat 94).read 0)
    ((s.parse_key_buffer.write s.parse_key_buffer_index.toNat 94).read 1)
    0x00 s.interpret_crlf_as_execute

/-- The chain left -1 or an 8-bit value in `out_scan_code`. -/
def CodeOrNone (r : Parsed) : Prop :=
  r.out_scan_code = -1 ∨ (0 ≤ r.out_scan_code ∧ r.out_scan_code ≤ 255)

/-- The chain kept the flag `gate`, or the two bytes are `E0` or `E1`. -/
def GateKeptOrToggle (c0 c1 : Nat) (gate : Bool) (r : Parsed) : Prop :=
  r.interpret_crlf_as_execute = gate ∨ (c0 = 69 ∧ (c1 = 48 ∨ c1 = 49))

/-- What the closing `^` does to the outside, given what the chain left: the
delays, then the strobe sequence when `out_scan_code >= 0`, with the parity
recomputed by the mask tests. -/
def parsed_outputs (r : Parsed) : List Out :=
  r.delays.map Out.delay ++
    if r.out_scan_code ≥ 0 then [Out.key r.out_scan_code (odd_parity r.out_scan_code)] else []

/-- The chain left nothing to do: no scan code, no delay, the flag `gate`
kept. -/
def Inert (gate : Bool) (r : Parsed) : Prop :=
  r = ⟨-1, [], gate⟩

/-- A parsed key is being received, at least two bytes of it are stored,
the first two are `x` and `y`, and the flag is `gate`. -/
def Holding (x y : Nat) (gate : Bool) (s : State) : Prop :=
  s.parse_key_mode = true ∧
    2 ≤ s.parse_key_buffer_index ∧ s.parse_key_buffer_index ≤ 99 ∧
    s.parse_key_buffer.read 0 = x ∧ s.parse_key_buffer.read 1 = y ∧
    s.interpret_crlf_as_execute = gate

/-- In parse-key mode `parse_key_buffer_index` is within 0 .. 99, in normal
mode it is -1. -/
def IndexInvariant (s : State) : Prop :=
  (s.parse_key_mode = true →
    0 ≤ s.parse_key_buffer_index ∧ s.parse_key_buffer_index ≤ 99) ∧
  (s.parse_key_mode = false → s.parse_key_buffer_index = -1)

/-- The parsed keys that stand for a key of the IBM 5110, from the list
"PARSED KEYS" in the header of `5110KBD.c`, each with the scan code named for
it in the specification: LE, RI, UP, DO, SU, SD, HO, AT, CA, CP, CM, CS. -/
def key_tokens : List (Fin 256 × Fin 256 × Int) :=
  [(76, 69, 0x34), (82, 73, 0xB4), (85, 80, 0xDF), (68, 79, 0x4F),
   (83, 85, 0xDE), (83, 68, 0x4E), (72, 79, 0x36), (65, 84, 0xB6),
   (67, 65, 0x96), (67, 80, 0x91), (67, 77, 0x93), (67, 83, 0x95)]

/-- The control codes of the header of `5110KBD.c`, each with the two bytes of
the parsed key listed for the same key: CTRL-A / UP, CTRL-Z / DO, CTRL-P / RI,
CTRL-O / LE, CTRL-L / HO, CTRL-M / EX, CTRL-R / CA, CTRL-T / CS, CTRL-G / CM,
CTRL-B / CP, ESCAPE / AT. -/
def ctrl_aliases : List (Fin 256 × Fin 256 × Fin 256) :=
  [(0x01, 85, 80), (0x1A, 68, 79), (0x10, 82, 73), (0x0F, 76, 69),
   (0x0C, 72, 79), (0x0D, 69, 88), (0x12, 67, 65), (0x14, 67, 83),
   (0x07, 67, 77), (0x02, 67, 80), (0x1B, 65, 84)]

/-- The token dictionary of the specification, as pairs of byte values: the
thirteen keys LE, RI, UP, DO, SU, SD, HO, EX, AT, CA, CP, CM, CS, the delays
D1 .. D9, and the toggles E0, E1. -/
def dictionary : List (Nat × Nat) :=
  [(76, 69), (82, 73), (85, 80), (68, 79), (83, 85), (83, 68), (72, 79), (69, 88),
   (65, 84), (67, 65), (67, 80), (67, 77), (67, 83),
   (68, 49), (68, 50), (68, 51), (68, 52), (68, 53), (68, 54), (68, 55), (68, 56),
   (68, 57), (69, 48), (69, 49)]

/-- The ten lines to the keyboard connector, named as the pin definitions of
the programs. -/
inductive Pin where
  | PIN_KBD_P
  | PIN_KBD_7
  | PIN_KBD_6
  | PIN_KBD_5
  | PIN_KBD_4
  | PIN_KBD_3
  | PIN_KBD_2
  | PIN_KBD_1
  | PIN_KBD_0
  | PIN_KBD_STROBE
deriving DecidableEq, Repr

/-- The two directions of a line: `INPUT` (released, idle) and `OUTPUT`
(driven; every line was written `LOW` at startup). -/
inductive PinMode where
  | INPUT
  | OUTPUT
deriving DecidableEq, Repr

/-- One operation of the strobe sequence: `pinMode(pin, mode)`
(`gpio_set_direction` on the ESP32) or `delay(n)` (`vTaskDelay(n)`). -/
inductive PinOp where
  | pinMode (pin : Pin) (mode : PinMode)
  | delay (n : Nat)
deriving DecidableEq, Repr

/-- The statement `if ((out_scan_code & mask) == 0x00) pinMode(pin, mode);`. -/
def pull (out_scan_code mask : Int) (pin : Pin) (mode : PinMode) : List PinOp :=
  if Int.land out_scan_code mask = 0x00 then [PinOp.pinMode pin mode] else []

/-- First part of the strobe sequence, up to the strobe going on: the data
lines whose bit is 0, the parity line `if (out_parity == 0)`, then
`pinMode(PIN_KBD_STROBE, OUTPUT)`. -/
def strobe_assert (out_scan_code out_parity : Int) : List PinOp :=
  pull out_scan_code 0x80 Pin.PIN_KBD_0 PinMode.OUTPUT ++
  pull out_scan_code 0x40 Pin.PIN_KBD_1 PinMode.OUTPUT ++
  pull out_scan_code 0x20 Pin.PIN_KBD_2 PinMode.OUTPUT ++
  pull out_scan_code 0x10 Pin.PIN_KBD_3 PinMode.OUTPUT ++
  pull out_scan_code 0x08 Pin.PIN_KBD_4 PinMode.OUTPUT ++
  pull out_scan_code 0x04 Pin.PIN_KBD_5 PinMode.OUTPUT ++
  pull out_scan_code 0x02 Pin.PIN_KBD_6 PinMode.OUTPUT ++
  pull out_scan_code 0x01 Pin.PIN_KBD_7 PinMode.OUTPUT ++
  (if out_parity = 0 then [PinOp.pinMode Pin.PIN_KBD_P PinMode.OUTPUT] else []) ++
  [PinOp.pinMode Pin.PIN_KBD_STROBE PinMode.OUTPUT]

/-- Last part of the strobe sequence, from the strobe going off:
`pinMode(PIN_KBD_STROBE, INPUT)`, then "revert back whatever was pulled
down". -/
def strobe_release (out_scan_code out_parity : Int) : List PinOp :=
  [PinOp.pinMode Pin.PIN_KBD_STROBE PinMode.INPUT] ++
  pull out_scan_code 0x80 Pin.PIN_KBD_0 PinMode.INPUT ++
  pull out_scan_code 0x40 Pin.PIN_KBD_1 PinMode.INPUT ++
  pull out_scan_code 0x20 Pin.PIN_KBD_2 PinMode.INPUT ++
  pull out_scan_code 0x10 Pin.PIN_KBD_3 PinMode.INPUT ++
  pull out_scan_code 0x08 Pin.PIN_KBD_4 PinMode.INPUT ++
  pull out_scan_code 0x04 Pin.PIN_KBD_5 PinMode.INPUT ++
  pull out_scan_code 0x02 Pin.PIN_KBD_6 PinMode.INPUT ++
  pull out_scan_code 0x01 Pin.PIN_KBD_7 PinMode.INPUT ++
  (if out_parity = FALSE then [PinOp.pinMode Pin.PIN_KBD_P PinMode.INPUT] else [])

/-- The body of `if (out_scan_code >= 0) { ... }`: the lines go on, `delay(10)`
holds them, the lines go off. -/
def strobe_sequence (out_scan_code out_parity : Int) : List PinOp :=
  strobe_assert out_scan_code out_parity ++
    PinOp.delay 10 :: strobe_release out_scan_code out_parity

/-- The direction of every line. -/
abbrev Pins := Pin → PinMode

/-- All lines released, as `setup` and `configure_pins` leave them. -/
def idle : Pins :=
  fun _ => PinMode.INPUT

/-- The effect of one operation on the lines; a delay changes none. -/
def pin_step (pins : Pins) : PinOp → Pins
  | PinOp.pinMode pin mode => fun q => if q = pin then mode else pins q
  | PinOp.delay _ => pins

/-- The effect of a list of operations on the lines, in order. -/
def pin_exec (pins : Pins) (ops : List PinOp) : Pins :=
  ops.foldl pin_step pins

/-- The data line `KBD_k`, for `k` in 0 .. 7. -/
def data_pin : Fin 8 → Pin
  | 0 => Pin.PIN_KBD_0
  | 1 => Pin.PIN_KBD_1
  | 2 => Pin.PIN_KBD_2
  | 3 => Pin.PIN_KBD_3
  | 4 => Pin.PIN_KBD_4
  | 5 => Pin.PIN_KBD_5
  | 6 => Pin.PIN_KBD_6
  | 7 => Pin.PIN_KBD_7

/-- The ASCII digit `d`, as a received byte. -/
def digit_byte (d : Fin 10) : Fin 256 :=
  ⟨48 + d.val, by omega⟩

/-- The operations one output performs: a `delay(n)` of a parsed key, or the
strobe sequence for a pair. -/
def pin_ops : Out → List PinOp
  | Out.delay n => [PinOp.delay n]
  | Out.key out_scan_code out_parity => strobe_sequence out_scan_code out_parity

/-- The operations of a list of outputs, in order. -/
def pin_trace : List Out → List PinOp
  | [] => []
  | o :: rest => pin_ops o ++ pin_trace rest

/-- The data and parity lines going on: the strobe sequence before
`pinMode(PIN_KBD_STROBE, OUTPUT)`. -/
def lines_on (out_scan_code out_parity : Int) : List PinOp :=
  pull out_scan_code 0x80 Pin.PIN_KBD_0 PinMode.OUTPUT ++
  pull out_scan_code 0x40 Pin.PIN_KBD_1 PinMode.OUTPUT ++
  pull out_scan_code 0x20 Pin.PIN_KBD_2 PinMode.OUTPUT ++
  pull out_scan_code 0x10 Pin.PIN_KBD_3 PinMode.OUTPUT ++
  pull out_scan_code 0x08 Pin.PIN_KBD_4 PinMode.OUTPUT ++
  pull out_scan_code 0x04 Pin.PIN_KBD_5 PinMode.OUTPUT ++
  pull out_scan_code 0x02 Pin.PIN_KBD_6 PinMode.OUTPUT ++
  pull out_scan_code 0x01 Pin.PIN_KBD_7 PinMode.OUTPUT ++
  (if out_parity = 0 then [PinOp.pinMode Pin.PIN_KBD_P PinMode.OUTPUT] else [])

/-- The data and parity lines going off: the strobe sequence after
`pinMode(PIN_KBD_STROBE, INPUT)`. -/
def lines_off (out_scan_code out_parity : Int) : List PinOp :=
  pull out_scan_code 0x80 Pin.PIN_KBD_0 PinMode.INPUT ++
  pull out_scan_code 0x40 Pin.PIN_KBD_1 PinMode.INPUT ++
  pull out_scan_code 0x20 Pin.PIN_KBD_2 PinMode.INPUT ++
  pull out_scan_code 0x10 Pin.PIN_KBD_3 PinMode.INPUT ++
  pull out_scan_code 0x08 Pin.PIN_KBD_4 PinMode.INPUT ++
  pull out_scan_code 0x04 Pin.PIN_KBD_5 PinMode.INPUT ++
  pull out_scan_code 0x02 Pin.PIN_KBD_6 PinMode.INPUT ++
  pull out_scan_code 0x01 Pin.PIN_KBD_7 PinMode.INPUT ++
  (if out_parity = FALSE then [PinOp.pinMode Pin.PIN_KBD_P PinMode.INPUT] else [])

/-- The ASCII code that the comment of each physical line of the initializer
in `5110KBD.c` names (first column of the comment, equal to the hexadecimal
second column), in file order as `arduino_rows`; `none` for the two lines
commented "no idea why this extra space in the table is necessary...". -/
def arduino_row_labels : List (Option Nat) := [
  some 0, some 1, some 2, some 3, some 4, some 5, some 6, some 7, some 8, some 9, some 10, some 11,
  some 12, some 13, some 14, some 15, some 16, some 17, some 18, some 19, some 20, some 21, some 22, some 23,
  some 24, some 25, some 26, some 27, some 28, some 29, some 30, some 31, some 32, some 33, some 34, some 35,
  some 36, some 37, some 38, some 39, some 40, some 41, some 42, some 43, some 44, some 45, some 46, some 47,
  some 48, some 49, some 50, some 51, some 52, some 53, some 54, some 55, none, some 56, some 57, some 58,
  some 59, some 60, some 61, some 62, some 63, some 64, some 65, some 66, some 67, some 68, some 69, some 70,
  some 71, some 72, some 73, some 74, some 75, some 76, some 77, some 78, some 79, some 80, some 81, some 82,
  some 83, some 84, some 85, some 86, some 87, some 88, some 89, some 90, some 91, some 92, some 93, some 94,
  some 95, some 96, none, some 97, some 98, some 99, some 100, some 101, some 102, some 103, some 104, some 105,
  some 106, some 107, some 108, some 109, some 110, some 111, some 112, some 113, some 114, some 115, some 116, some 117,
  some 118, some 119, some 120, some 121, some 122, some 123, some 124, some 125, some 126, some 127, some 128, some 129,
  some 130, some 131, some 132, some 133, some 134, some 135, some 136, some 137, some 138, some 139, some 140, some 141,
  some 142, some 143, some 144, some 145, some 146, some 147, some 148, some 149, some 150, some 151, some 152, some 153,
  some 154, some 155, some 156, some 157, some 158, some 159, some 160, some 161, some 162, some 163, some 164, some 165,
  some 166, some 167, some 168, some 169, some 170, some 171, some 172, some 173, some 174, some 175, some 176, some 177,
  some 178, some 179, some 180, some 181, some 182, some 183, some 184, some 185, some 186, some 187, some 188, some 189,
  some 190, some 191, some 192, some 193, some 194, some 195, some 196, some 197, some 198, some 199, some 200, some 201,
  some 202, some 203, some 204, some 205, some 206, some 207, some 208, some 209, some 210, some 211, some 212, some 213,
  some 214, some 215, some 216, some 217, some 218, some 219, some 220, some 221, some 222, some 223, some 224, some 225,
  some 226, some 227, some 228, some 229, some 230, some 231, some 232, some 233, some 234, some 235, some 236, some 237,
  some 238, some 239, some 240, some 241, some 242, some 243, some 244, some 245, some 246, some 247, some 248, some 249,
  some 250, some 251, some 252, some 253, some 254, some 255
]

/-- The lines of the initializer of `5110KBD.c` whose comment names an ASCII
code, in file order: the code named, and the value written on the line. -/
def labelled_rows : List (Nat × Int) :=
  (List.zip arduino_row_labels arduino_rows).filterMap
    (fun r => r.1.map (fun label => (label, r.2.1)))

/-- The bytes of the header line "Most other keys (A-Z, 0-9, $&*-+;:.,()
should convert as expected)", with the lower-case letters: `A` .. `Z`,
`a` .. `z`, `0` .. `9`, and `$ & * - + ; : . , ( )`. -/
def ordinary_keys : List (Fin 256) :=
  [65, 66, 67, 68, 69, 70, 71, 72, 73, 74, 75, 76, 77,
   78, 79, 80, 81, 82, 83, 84, 85, 86, 87, 88, 89, 90,
   97, 98, 99, 100, 101, 102, 103, 104, 105, 106, 107, 108, 109,
   110, 111, 112, 113, 114, 115, 116, 117, 118, 119, 120, 121, 122,
   48, 49, 50, 51, 52, 53, 54, 55, 56, 57,
   36, 38, 42, 45, 43, 59, 58, 46, 44, 40, 41]

/-- The first bytes of a token body are `SU` or `SD`. -/
def shift_arrow (body : List (Fin 256)) : Bool :=
  body = [83, 85] || body = [83, 68]

/-- The globals `s` are at the position `pos` of a stream, `none` outside a
parsed key and `some body` inside one, `body` being the bytes received since
the opening `^`, at most the first two of them: the mode agrees, and inside a
parsed key the buffer starts with the bytes of `body`, which are not `SU` or
`SD`, the index counting them. -/
def AtPosition : Option (List (Fin 256)) → State → Prop
  | none, s => s.parse_key_mode = false
  | some body, s =>
    s.parse_key_mode = true ∧ body.length ≤ 2 ∧ shift_arrow body = false ∧
      (body.length < 2 → s.parse_key_buffer_index = body.length) ∧
      (body.length = 2 → 2 ≤ s.parse_key_buffer_index ∧ s.parse_key_buffer_index ≤ 99) ∧
      ∀ i, i < body.length → s.parse_key_buffer.read i = (body.map Fin.val).getD i 0

/-- The bytes `w` have been received since the opening `^`: the buffer holds
the first 99 of them in slots 0 .. 98, slot 99 holds the last one once 100 or
more were received, and the index is the number received, at most 99. -/
def Stored (w : List (Fin 256)) (s : State) : Prop :=
  s.parse_key_mode = true ∧
    s.parse_key_buffer_index = min w.length 99 ∧
    (∀ i, i < w.length → i < 99 → s.parse_key_buffer.read i = (w.map Fin.val).getD i 0) ∧
    (100 ≤ w.length → s.parse_key_buffer.read 99 = (w.map Fin.val).getD (w.length - 1) 0)

/-- The globals `s` and `t` agree on everything the programs will read: mode,
index, flag, and in parse-key mode the slots below the index; the other slots
of the buffer may differ. -/
def SameButStale (s t : State) : Prop :=
  s.parse_key_mode = t.parse_key_mode ∧
    s.parse_key_buffer_index = t.parse_key_buffer_index ∧
    s.interpret_crlf_as_execute = t.interpret_crlf_as_execute ∧
    (s.parse_key_mode = true →
      0 ≤ s.parse_key_buffer_index ∧ s.parse_key_buffer_index ≤ 99 ∧
      ∀ i : Nat, (i : Int) < s.parse_key_buffer_index →
        s.parse_key_buffer.read i = t.parse_key_buffer.read i)

/-- The chain left one delay and no scan code, or no delay. -/
def OneAction (r : Parsed) : Prop :=
  (r.delays.length ≤ 1 ∧ r.out_scan_code = -1) ∨ r.delays = []

/-- A stream on which the two programs are written alike: no line feed (10)
is received outside a parsed key, and no parsed key closed by its `^` has `SU`
or `SD` as its first two bytes. The first argument is the position in the
stream: `none` outside a parsed key, `some body` inside one, `body` being the
bytes received since the opening `^`, at most the first two of them. -/
def portable : Option (List (Fin 256)) → List (Fin 256) → Bool
  | _, [] => true
  | none, b :: rest =>
    if b.val = 94 then portable (some []) rest
    else b.val ≠ 10 && portable none rest
  | some body, b :: rest =>
    if b.val = 94 then !(shift_arrow body) && portable none rest
    else portable (some (if body.length < 2 then body ++ [b] else body)) rest

/-- The globals `s` are at the position `pos` of `portable`: the mode agrees,
and inside a parsed key the buffer starts with the bytes of `body`, the index
counting them. -/
def Follows : Option (List (Fin 256)) → State → Prop
  | none, s => s.parse_key_mode = false
  | some body, s =>
    s.parse_key_mode = true ∧ body.length ≤ 2 ∧
      (body.length < 2 → s.parse_key_buffer_index = body.length) ∧
      (body.length = 2 → 2 ≤ s.parse_key_buffer_index ∧ s.parse_key_buffer_index ≤ 99) ∧
      ∀ i, i < body.length → s.parse_key_buffer.read i = (body.map Fin.val).getD i 0

/-- The eight data lines. -/
def data_lines : List Pin :=
  [Pin.PIN_KBD_0, Pin.PIN_KBD_1, Pin.PIN_KBD_2, Pin.PIN_KBD_3,
   Pin.PIN_KBD_4, Pin.PIN_KBD_5, Pin.PIN_KBD_6, Pin.PIN_KBD_7]

/-- The nine lines of the word: the eight data lines and the parity line. -/
def nine_lines : List Pin :=
  data_lines ++ [Pin.PIN_KBD_P]

/-- The number of lines of `lines` that are driven (`OUTPUT`). -/
def asserted (pins : Pins) (lines : List Pin) : Nat :=
  (lines.filter (fun q => pins q = PinMode.OUTPUT)).length

/-- The bytes of the header line "Most other keys (A-Z, 0-9, $&*-+;:.,()
should convert as expected)": `A` .. `Z`, `0` .. `9`, and
`$ & * - + ; : . , ( )`. -/
def upper_keys : List (Fin 256) :=
  [65, 66, 67, 68, 69, 70, 71, 72, 73, 74, 75, 76, 77,
   78, 79, 80, 81, 82, 83, 84, 85, 86, 87, 88, 89, 90,
   48, 49, 50, 51, 52, 53, 54, 55, 56, 57,
   36, 38, 42, 45, 43, 59, 58, 46, 44, 40, 41]

/-! ## The tables -/

theorem setup_loop_getD (board : Board) :
    ∀ (fuel i : Nat) (pv : List Int) (j : Nat), i + fuel = 256 → pv.length = 256 → j < 256 →
      (setup_loop board fuel i pv).getD j 0 =
        if i ≤ j then odd_parity (table_at board j) else pv.getD j 0 := by
  intro fuel
  induction fuel with
  | zero =>
    intro i pv j hi _ hj
    have : ¬ i ≤ j := by omega
    simp [setup_loop, this]
  | succ n ih =>
    intro i pv j hi hlen hj
    have hi256 : i < 256 := by omega
    unfold setup_loop
    simp only [hi256, if_true]
    rw [ih (i + 1) _ j (by omega) (by simpa using hlen) hj]
    by_cases h1 : i + 1 ≤ j
    · have h2 : i ≤ j := by omega
      simp [h1, h2]
    · by_cases h2 : i = j
      · subst h2
        simp [h1, List.getD_eq_getElem?_getD, List.getElem?_set, hlen, hi256]
      · have h3 : ¬ i ≤ j := by omega
        simp [h1, h3, List.getD_eq_getElem?_getD, List.getElem?_set, h2]

/-- After startup, every entry of `parity_values` is the parity computed by the
mask tests from the entry of `ascii_to_5110` at the same index. -/
theorem parity_at_eq (board : Board) (i : Nat) (hi : i < 256) :
    parity_at board i = odd_parity (table_at board i) := by
  unfold parity_at parity_values
  rw [setup_loop_getD board 256 0 _ i (by omega) (by simp) hi]
  simp

theorem ascii_to_5110_length (board : Board) : (ascii_to_5110 board).length = 256 := by
  cases board <;> decide

theorem ascii_to_5110_range (board : Board) :
    ∀ v ∈ ascii_to_5110 board, 0 ≤ v ∧ v ≤ 255 := by
  cases board <;> decide

theorem table_at_range (board : Board) (i : Nat) :
    0 ≤ table_at board i ∧ table_at board i ≤ 255 := by
  unfold table_at
  by_cases hi : i < (ascii_to_5110 board).length
  · rw [List.getD_eq_getElem _ _ hi]
    exact ascii_to_5110_range board _ (List.getElem_mem _)
  · rw [List.getD_eq_default _ _ (by omega)]
    decide

theorem table_at_caret (board : Board) : table_at board 94 = 0 := by
  cases board <;> decide

theorem odd_parity_fin : ∀ n : Fin 256,
    odd_parity (n.val : Int) = if popcount n.val % 2 = 1 then 1 else 0 := by
  decide!

theorem odd_parity_pair (c : Int) (h0 : 0 ≤ c) (h255 : c ≤ 255) :
    OddParityPair c (odd_parity c) := by
  have hlt : c.toNat < 256 := by omega
  have hc : ((c.toNat : Nat) : Int) = c := Int.toNat_of_nonneg h0
  have h := odd_parity_fin ⟨c.toNat, hlt⟩
  simp only [hc] at h
  refine ⟨h0, h255, ?_, ?_⟩
  · rw [h]; split <;> simp
  · rw [h]; split <;> simp_all


/-! ## The buffer -/

theorem Buffer.read_write_same (buf : Buffer) (i v : Nat) (hi : i < 100) :
    (buf.write i v).read i = v := by
  simp [Buffer.read, Buffer.write, List.getD_eq_getElem?_getD, List.getElem?_set, buf.size_eq, hi]

theorem Buffer.read_write_ne (buf : Buffer) (i j v : Nat) (hij : i ≠ j) :
    (buf.write i v).read j = buf.read j := by
  simp [Buffer.read, Buffer.write, List.getD_eq_getElem?_getD, List.getElem?_set, hij]

/-! ## One received byte, case by case -/

/-- Normal mode, a byte with a scan code that the EXECUTE gate lets through. -/
theorem step_normal_mapped (board : Board) (s : State) (b : Fin 256)
    (hm : s.parse_key_mode = false) (h0 : table_at board b.val ≠ 0)
    (hg : s.interpret_crlf_as_execute = true ∨ table_at board b.val ≠ KEY_EXECUTE) :
    step board s b = some (s, [Out.key (table_at board b.val) (parity_at board b.val)]) := by
  have hr := (table_at_range board b.val).1
  have hc : ¬ (table_at board b.val = KEY_EXECUTE ∧ s.interpret_crlf_as_execute = false) := by
    rintro ⟨h1, h2⟩
    rcases hg with h | h
    · rw [h] at h2; exact Bool.noConfusion h2
    · exact h h1
  simp [step, step_with, loop_body_with, loop_translate, loop_parse_key, entry, outputs,
    loop_transmit, hm, hc, h0, hr]

/-- Normal mode, EXECUTE while the gate is closed. -/
theorem step_normal_gated (board : Board) (s : State) (b : Fin 256)
    (hm : s.parse_key_mode = false) (he : table_at board b.val = KEY_EXECUTE)
    (hg : s.interpret_crlf_as_execute = false) :
    step board s b = some (s, []) := by
  simp [step, step_with, loop_body_with, loop_translate, loop_parse_key, entry, outputs,
    loop_transmit, hm, he, hg]

/-- Normal mode, a byte without scan code other than `^`. -/
theorem step_normal_unmapped (board : Board) (s : State) (b : Fin 256)
    (hm : s.parse_key_mode = false) (h0 : table_at board b.val = 0) (hb : b.val ≠ 94) :
    step board s b = some (s, []) := by
  simp [step, step_with, loop_body_with, loop_translate, loop_parse_key, entry, outputs,
    loop_transmit, hm, h0, hb, KEY_EXECUTE]

/-- Normal mode, the byte `^`. -/
theorem step_normal_caret (board : Board) (s : State) (b : Fin 256)
    (hm : s.parse_key_mode = false) (hb : b.val = 94) :
    step board s b =
      some ({ s with parse_key_mode := true, parse_key_buffer_index := 0 }, []) := by
  have h0 := table_at_caret board
  simp [step, step_with, loop_body_with, loop_translate, loop_parse_key, entry, outputs,
    loop_transmit, hm, h0, hb, KEY_EXECUTE]


/-- Parse-key mode, a byte other than `^`: it is stored and nothing else
happens. -/
theorem step_parse_store (board : Board) (s : State) (b : Fin 256)
    (hm : s.parse_key_mode = true) (hb : b.val ≠ 94)
    (hi : 0 ≤ s.parse_key_buffer_index ∧ s.parse_key_buffer_index < MAX_PARSE_KEY_BUFFER_LENGTH) :
    step board s b =
      some ({ s with
        parse_key_buffer := s.parse_key_buffer.write s.parse_key_buffer_index.toNat b.val
        parse_key_buffer_index :=
          if s.parse_key_buffer_index + 1 ≥ MAX_PARSE_KEY_BUFFER_LENGTH
          then s.parse_key_buffer_index + 1 - 1 else s.parse_key_buffer_index + 1 }, []) := by
  simp [step, step_with, loop_body_with, loop_translate, loop_parse_key, entry, outputs,
    loop_transmit, hm, hb, hi]

/-- Parse-key mode, the byte `^`: it is stored, the mode is left and the buffer
is interpreted. -/
theorem step_parse_close (board : Board) (s : State) (b : Fin 256)
    (hm : s.parse_key_mode = true) (hb : b.val = 94)
    (hi : 0 ≤ s.parse_key_buffer_index ∧ s.parse_key_buffer_index < MAX_PARSE_KEY_BUFFER_LENGTH) :
    step board s b =
      some ({ parse_key_mode := false
              parse_key_buffer := s.parse_key_buffer.write s.parse_key_buffer_index.toNat 94
              parse_key_buffer_index := -1
              interpret_crlf_as_execute := (parsed_on_close board s).interpret_crlf_as_execute },
            (parsed_on_close board s).delays.map Out.delay ++
              if (parsed_on_close board s).out_scan_code ≥ 0 then
                [Out.key (parsed_on_close board s).out_scan_code
                  (odd_parity (parsed_on_close board s).out_scan_code)]
              else []) := by
  simp only [step, step_with, loop_body_with, loop_translate, loop_parse_key, entry, outputs,
    loop_transmit, hm, hb, hi, parsed_on_close]
  simp
  split <;> simp_all


/-! ## Parsed keys -/

/-- A property of both branches of an `if` holds of the `if`; in the first
branch the condition may be used. -/
theorem Parsed.of_ite {P : Parsed → Prop} (c : Prop) [Decidable c] (a b : Parsed)
    (ha : c → P a) (hb : P b) : P (if c then a else b) := by
  split
  · exact ha ‹c›
  · exact hb

/-- The chain yields -1 or an 8-bit scan code. -/
theorem interpret_parse_key_range (board : Board) (c0 c1 : Nat) (gate : Bool) :
    CodeOrNone (interpret_parse_key board c0 c1 0 gate) := by
  unfold interpret_parse_key
  repeat (any_goals (first | apply Parsed.of_ite | intro _))
  all_goals simp [CodeOrNone]

/-! ## Whole runs -/

/-- One byte from a state in which the next store is within the buffer: the
step is defined, the next store is again within the buffer, and every pair
handed to the strobe sequence carries its odd parity. -/
theorem step_invariant (board : Board) (s : State) (b : Fin 256) (h : InBounds s) :
    ∃ s1 out, step board s b = some (s1, out) ∧ InBounds s1 ∧
      ∀ c p, Out.key c p ∈ out → OddParityPair c p := by
  by_cases hm : s.parse_key_mode = true
  · have hi := h hm
    by_cases hb : b.val = 94
    · refine ⟨_, _, step_parse_close board s b hm hb hi, ?_, ?_⟩
      · intro hmode; simp at hmode
      · intro c p hmem
        rcases interpret_parse_key_range board
          ((s.parse_key_buffer.write s.parse_key_buffer_index.toNat 94).read 0)
          ((s.parse_key_buffer.write s.parse_key_buffer_index.toNat 94).read 1)
          s.interpret_crlf_as_execute with hneg | ⟨h0, h255⟩
        · have hneg1 : (parsed_on_close board s).out_scan_code = -1 := hneg
          simp [hneg1] at hmem
        · have h01 : 0 ≤ (parsed_on_close board s).out_scan_code := h0
          have h2551 : (parsed_on_close board s).out_scan_code ≤ 255 := h255
          simp [h01] at hmem
          obtain ⟨rfl, rfl⟩ := hmem
          exact odd_parity_pair _ h01 h2551
    · refine ⟨_, _, step_parse_store board s b hm hb hi, ?_, ?_⟩
      · intro _
        simp only [MAX_PARSE_KEY_BUFFER_LENGTH] at hi ⊢
        split <;> omega
      · intro c p hmem; simp at hmem
  · have hm0 : s.parse_key_mode = false := by simpa using hm
    have hs : InBounds s := h
    by_cases h0 : table_at board b.val = 0
    · by_cases hb : b.val = 94
      · refine ⟨_, _, step_normal_caret board s b hm0 hb, ?_, ?_⟩
        · intro _; simp [MAX_PARSE_KEY_BUFFER_LENGTH]
        · intro c p hmem; simp at hmem
      · exact ⟨_, _, step_normal_unmapped board s b hm0 h0 hb, hs, by intro c p hmem; simp at hmem⟩
    · by_cases hg : s.interpret_crlf_as_execute = true ∨ table_at board b.val ≠ KEY_EXECUTE
      · refine ⟨_, _, step_normal_mapped board s b hm0 h0 hg, hs, ?_⟩
        intro c p hmem
        simp only [List.mem_singleton, Out.key.injEq] at hmem
        rw [hmem.1, hmem.2, parity_at_eq board b.val b.isLt]
        exact odd_parity_pair _ (table_at_range board b.val).1 (table_at_range board b.val).2
      · have he : table_at board b.val = KEY_EXECUTE := by
          by_contra hne; exact hg (Or.inr hne)
        have hgate : s.interpret_crlf_as_execute = false := by
          cases hgv : s.interpret_crlf_as_execute
          · rfl
          · exact absurd (Or.inl hgv) hg
        exact ⟨_, _, step_normal_gated board s b hm0 he hgate, hs,
          by intro c p hmem; simp at hmem⟩

theorem run_cons (board : Board) (s s1 : State) (b : Fin 256) (rest : List (Fin 256))
    (out1 : List Out) (h : step board s b = some (s1, out1)) :
    run board s (b :: rest) = (run board s1 rest).map (fun r => (r.1, out1 ++ r.2)) := by
  unfold step at h
  simp only [run, run_with, h]
  cases run_with board (parity_at board) s1 rest with
  | none => rfl
  | some r => rfl

/-- A whole stream from a state in which the next store is within the buffer:
the run is defined and every pair handed to the strobe sequence carries its odd
parity. -/
theorem run_invariant (board : Board) (input : List (Fin 256)) :
    ∀ s, InBounds s → ∃ s1 out, run board s input = some (s1, out) ∧ InBounds s1 ∧
      ∀ c p, Out.key c p ∈ out → OddParityPair c p := by
  induction input with
  | nil => intro s h; exact ⟨s, [], rfl, h, by intro c p hmem; simp at hmem⟩
  | cons b rest ih =>
    intro s h
    obtain ⟨s1, out1, hstep, h1, hgood1⟩ := step_invariant board s b h
    obtain ⟨s2, out2, hrun, h2, hgood2⟩ := ih s1 h1
    refine ⟨s2, out1 ++ out2, ?_, h2, ?_⟩
    · rw [run_cons board s s1 b rest out1 hstep, hrun]; rfl
    · intro c p hmem
      rcases List.mem_append.mp hmem with hm | hm
      · exact hgood1 c p hm
      · exact hgood2 c p hm

theorem initial_in_bounds : InBounds initial := by
  intro h; exact absurd h (by decide)

theorem mem_events (c p : Int) : ∀ out : List Out, (c, p) ∈ events out ↔ Out.key c p ∈ out := by
  intro out
  induction out with
  | nil => simp [events]
  | cons o rest ih =>
    cases o with
    | delay n => simp [events, ih]
    | key c1 p1 => simp [events, ih]


/-- The values that `out_scan_code` and `out_parity` hold when a byte arrives
change neither the new globals nor what is done to the outside. -/
theorem entry_irrelevant (board : Board) (parity_lookup : Nat → Int) (s : State)
    (x y : Int) (b : Fin 256) :
    (loop_body_with board parity_lookup
        { state := s, out_scan_code := x, out_parity := y, delays := [] } b).map
      (fun f => (f.state, outputs f)) = step_with board parity_lookup s b := by
  unfold step_with loop_body_with loop_translate entry
  by_cases hm : s.parse_key_mode = true
  · by_cases hi : 0 ≤ s.parse_key_buffer_index ∧
        s.parse_key_buffer_index < MAX_PARSE_KEY_BUFFER_LENGTH
    · by_cases hb : b.val = 94
      · simp only [hm, hi, hb, loop_parse_key, outputs, loop_transmit]
        simp
        split <;> simp_all
      · simp [hm, hi, hb, loop_parse_key, outputs, loop_transmit]
    · simp [hm, hi]
  · simp [hm]

/-- The per-byte step reads the parity table at the received byte only. -/
theorem step_with_congr (board : Board) (p1 p2 : Nat → Int) (s : State) (b : Fin 256)
    (h : p1 b.val = p2 b.val) : step_with board p1 s b = step_with board p2 s b := by
  simp [step_with, loop_body_with, loop_translate, h]

theorem run_with_congr (board : Board) (p1 p2 : Nat → Int)
    (h : ∀ i : Nat, i < 256 → p1 i = p2 i) (input : List (Fin 256)) :
    ∀ s, run_with board p1 s input = run_with board p2 s input := by
  induction input with
  | nil => intro s; rfl
  | cons b rest ih =>
    intro s
    simp only [run_with, step_with_congr board p1 p2 s b (h b.val b.isLt), ih]

/-- A two-byte parsed key `^xy^` received in normal mode: the four bytes end in
normal mode, the buffer starts with `x`, `y`, `^`, and the flag, the delays and
the pair handed to the strobe sequence are those the chain yields for `x`,
`y`. -/
theorem run_parse_key (board : Board) (s : State) (x y : Fin 256)
    (hm : s.parse_key_mode = false) (hx : x.val ≠ 94) (hy : y.val ≠ 94) :
    run board s [94, x, y, 94] =
      some ({ parse_key_mode := false
              parse_key_buffer :=
                ((s.parse_key_buffer.write 0 x.val).write 1 y.val).write 2 94
              parse_key_buffer_index := -1
              interpret_crlf_as_execute :=
                (interpret_parse_key board x.val y.val 0
                  s.interpret_crlf_as_execute).interpret_crlf_as_execute },
            (interpret_parse_key board x.val y.val 0 s.interpret_crlf_as_execute).delays.map
                Out.delay ++
              if (interpret_parse_key board x.val y.val 0
                    s.interpret_crlf_as_execute).out_scan_code ≥ 0 then
                [Out.key
                  (interpret_parse_key board x.val y.val 0
                    s.interpret_crlf_as_execute).out_scan_code
                  (odd_parity (interpret_parse_key board x.val y.val 0
                    s.interpret_crlf_as_execute).out_scan_code)]
              else []) := by
  have h1 := step_normal_caret board s 94 hm rfl
  have h2 := step_parse_store board
    { s with parse_key_mode := true, parse_key_buffer_index := 0 } x rfl hx
    (by simp [MAX_PARSE_KEY_BUFFER_LENGTH])
  have h3 := step_parse_store board
    { s with parse_key_mode := true
             parse_key_buffer := s.parse_key_buffer.write 0 x.val
             parse_key_buffer_index := 1 } y rfl hy
    (by simp [MAX_PARSE_KEY_BUFFER_LENGTH])
  have h4 := step_parse_close board
    { s with parse_key_mode := true
             parse_key_buffer := (s.parse_key_buffer.write 0 x.val).write 1 y.val
             parse_key_buffer_index := 2 } 94 rfl rfl
    (by simp [MAX_PARSE_KEY_BUFFER_LENGTH])
  simp [MAX_PARSE_KEY_BUFFER_LENGTH] at h2 h3
  have hr0 : (((s.parse_key_buffer.write 0 x.val).write 1 y.val).write 2 94).read 0 = x.val := by
    rw [Buffer.read_write_ne _ 2 0 _ (by decide), Buffer.read_write_ne _ 1 0 _ (by decide),
      Buffer.read_write_same _ 0 _ (by decide)]
  have hr1 : (((s.parse_key_buffer.write 0 x.val).write 1 y.val).write 2 94).read 1 = y.val := by
    rw [Buffer.read_write_ne _ 2 1 _ (by decide), Buffer.read_write_same _ 1 _ (by decide)]
  have hp : parsed_on_close board
      { s with parse_key_mode := true
               parse_key_buffer := (s.parse_key_buffer.write 0 x.val).write 1 y.val
               parse_key_buffer_index := 2 } =
      interpret_parse_key board x.val y.val 0 s.interpret_crlf_as_execute := by
    simp [parsed_on_close, hr0, hr1]
  rw [hp] at h4
  rw [run_cons board _ _ _ _ _ h1, run_cons board _ _ _ _ _ h2, run_cons board _ _ _ _ _ h3,
    run_cons board _ _ _ _ _ h4]
  simp [run, run_with]


theorem run_append (board : Board) (u v : List (Fin 256)) :
    ∀ s, run board s (u ++ v) =
      match run board s u with
      | none => none
      | some (s1, out1) => (run board s1 v).map (fun r => (r.1, out1 ++ r.2)) := by
  induction u with
  | nil =>
    intro s
    cases h : run board s v with
    | none => simp [run, run_with, h]
    | some r => simp [run, run_with, h]
  | cons b rest ih =>
    intro s
    cases hstep : step board s b with
    | none =>
      have hs : step_with board (parity_at board) s b = none := hstep
      simp [run, run_with, hs]
    | some r =>
      obtain ⟨s1, out1⟩ := r
      rw [List.cons_append, run_cons board s s1 b _ out1 hstep,
        run_cons board s s1 b _ out1 hstep, ih s1]
      cases run board s1 rest with
      | none => rfl
      | some r1 =>
        obtain ⟨s2, out2⟩ := r1
        simp only [Option.map]
        cases run board s2 v with
        | none => rfl
        | some r2 => simp [List.append_assoc]

/-- The chain changes `interpret_crlf_as_execute` only for `E0` and `E1`. -/
theorem interpret_parse_key_gate (board : Board) (c0 c1 : Nat) (code : Int) (gate : Bool) :
    GateKeptOrToggle c0 c1 gate (interpret_parse_key board c0 c1 code gate) := by
  unfold interpret_parse_key
  repeat (any_goals (first | apply Parsed.of_ite | intro h))
  all_goals first
    | exact Or.inl rfl
    | exact Or.inr ⟨h.1, Or.inl h.2⟩
    | exact Or.inr ⟨h.1, Or.inr h.2⟩

theorem interpret_E0 (board : Board) (code : Int) (gate : Bool) :
    interpret_parse_key board 69 48 code gate = ⟨code, [], false⟩ := by
  cases board <;> simp [interpret_parse_key]

theorem interpret_E1 (board : Board) (code : Int) (gate : Bool) :
    interpret_parse_key board 69 49 code gate = ⟨code, [], true⟩ := by
  cases board <;> simp [interpret_parse_key]

theorem interpret_EX (board : Board) (code : Int) (gate : Bool) :
    interpret_parse_key board 69 88 code gate = ⟨0xB2, [], gate⟩ := by
  cases board <;> simp [interpret_parse_key]

/-- A store outside the buffer has no defined result. -/
theorem step_out_of_bounds (board : Board) (s : State) (b : Fin 256)
    (hm : s.parse_key_mode = true)
    (hi : ¬ (0 ≤ s.parse_key_buffer_index ∧
      s.parse_key_buffer_index < MAX_PARSE_KEY_BUFFER_LENGTH)) :
    step board s b = none := by
  simp [step, step_with, loop_body_with, loop_translate, entry, hm, hi]

/-- In normal mode a byte leaves `interpret_crlf_as_execute` and the buffer as
they are. -/
theorem step_normal_keeps (board : Board) (s s1 : State) (b : Fin 256) (out : List Out)
    (hm : s.parse_key_mode = false) (h : step board s b = some (s1, out)) :
    s1.interpret_crlf_as_execute = s.interpret_crlf_as_execute ∧
      s1.parse_key_buffer = s.parse_key_buffer := by
  by_cases h0 : table_at board b.val = 0
  · by_cases hb : b.val = 94
    · rw [step_normal_caret board s b hm hb] at h
      cases h; exact ⟨rfl, rfl⟩
    · rw [step_normal_unmapped board s b hm h0 hb] at h
      cases h; exact ⟨rfl, rfl⟩
  · by_cases hg : s.interpret_crlf_as_execute = true ∨ table_at board b.val ≠ KEY_EXECUTE
    · rw [step_normal_mapped board s b hm h0 hg] at h
      cases h; exact ⟨rfl, rfl⟩
    · have he : table_at board b.val = KEY_EXECUTE := by
        by_contra hne; exact hg (Or.inr hne)
      have hgate : s.interpret_crlf_as_execute = false := by
        cases hgv : s.interpret_crlf_as_execute
        · rfl
        · exact absurd (Or.inl hgv) hg
      rw [step_normal_gated board s b hm he hgate] at h
      cases h; exact ⟨rfl, rfl⟩


/-! ## Parity -/

/-- C1: for every finite stream of received bytes processed from the initial
globals, on either board, the run is defined and every pair (`c`, `p`) handed
to the strobe sequence has `0 ≤ c ≤ 255`, `p` equal to 0 or 1, and `p = 1`
exactly when the number of set bits among the 8 low bits of `c` is odd. -/
theorem parity_invariant_of_runs (board : Board) (input : List (Fin 256)) :
    ∃ s out, run board initial input = some (s, out) ∧
      ∀ c p, (c, p) ∈ events out →
        0 ≤ c ∧ c ≤ 255 ∧ (p = 0 ∨ p = 1) ∧ (p = 1 ↔ popcount c.toNat % 2 = 1) := by
  obtain ⟨s, out, hrun, _, hgood⟩ := run_invariant board input initial initial_in_bounds
  exact ⟨s, out, hrun, fun c p hmem => hgood c p ((mem_events c p out).mp hmem)⟩

/-- C2: for every scan code `n` in 0 .. 255 the eight mask tests followed by
`bit_count % 2` yield `TRUE` (1) if and only if the number of set bits of `n`
is odd, and `FALSE` (0) otherwise. -/
theorem on_the_fly_parity_is_odd_parity (n : Fin 256) :
    (odd_parity (n.val : Int) = TRUE ↔ popcount n.val % 2 = 1) ∧
      (odd_parity (n.val : Int) = FALSE ↔ ¬ popcount n.val % 2 = 1) := by
  rw [odd_parity_fin n]
  by_cases h : popcount n.val % 2 = 1 <;> simp [h, TRUE, FALSE]

/-- C3: after the startup loop, `parity_values[i]` equals the on-the-fly parity
of `ascii_to_5110[i]` for every index `i` in 0 .. 255, and the program that
computes the parity on demand does, from every state and on every stream,
exactly what the program reading `parity_values` does. -/
theorem precomputed_parity_agrees_with_on_demand (board : Board) :
    (∀ i : Fin 256, parity_at board i.val = odd_parity (table_at board i.val)) ∧
      ∀ (s : State) (input : List (Fin 256)),
        run_on_demand board s input = run board s input := by
  refine ⟨fun i => parity_at_eq board i.val i.isLt, fun s input => ?_⟩
  unfold run_on_demand run
  exact run_with_congr board _ _ (fun i hi => (parity_at_eq board i hi).symm) input s

/-! ## Direct translation -/

/-- C4: in normal mode, a byte `b` other than `^` whose table entry is not
0x00, with the EXECUTE gate enabled or the entry different from EXECUTE, yields
exactly one pair, the entry with the parity of the entry, and leaves every
global (the mode included) as it was. -/
theorem direct_translation (board : Board) (s : State) (b : Fin 256)
    (hm : s.parse_key_mode = false) (_hb : b.val ≠ 94) (h0 : table_at board b.val ≠ 0x00)
    (hg : s.interpret_crlf_as_execute = true ∨ table_at board b.val ≠ KEY_EXECUTE) :
    ∃ s1, step board s b =
        some (s1, [Out.key (table_at board b.val) (odd_parity (table_at board b.val))]) ∧
      s1.parse_key_mode = false ∧ s1 = s := by
  rw [step_normal_mapped board s b hm h0 hg, parity_at_eq board b.val b.isLt]
  exact ⟨s, rfl, hm, rfl⟩

/-- C4, at the letter `A` (65) from the initial globals, on both boards: the
single pair (0x0B, 1). -/
theorem direct_translation_witness :
    (∃ s1, step Board.arduino initial 65 = some (s1, [Out.key 0x0B 1]) ∧
      s1.parse_key_mode = false ∧ s1 = initial) ∧
    (∃ s1, step Board.esp32 initial 65 = some (s1, [Out.key 0x0B 1]) ∧
      s1.parse_key_mode = false ∧ s1 = initial) :=
  ⟨direct_translation Board.arduino initial 65 rfl (by decide) (by decide) (Or.inl rfl),
    direct_translation Board.esp32 initial 65 rfl (by decide) (by decide) (Or.inl rfl)⟩

/-- C5: on each board, for every `k` in 0 .. 25, the entry read for the
lower-case letter `a + k` equals the entry read for the upper-case letter
`A + k`, and neither is 0x00. -/
theorem letters_case_insensitive (board : Board) (k : Fin 26) :
    table_at board (97 + k.val) = table_at board (65 + k.val) ∧
      table_at board (65 + k.val) ≠ 0x00 ∧ table_at board (97 + k.val) ≠ 0x00 := by
  revert k
  cases board <;> decide


/-! ## The EXECUTE gate -/

/-- C6: after every stream processed from the initial globals that ends in
normal mode, a carriage return (13) yields exactly one pair, EXECUTE 0xB2 with
parity 0, when `interpret_crlf_as_execute` is set, and yields nothing and
leaves the flag cleared when it is cleared; the globals are otherwise
untouched. In particular the carriage return after `^E0^` yields nothing and
the carriage return after `^E1^` yields exactly one EXECUTE pair, from whatever
normal-mode state the parsed key was received in. -/
theorem execute_gate_on_carriage_return (board : Board) :
    (∀ input : List (Fin 256), ∃ s out, run board initial input = some (s, out) ∧
      (s.parse_key_mode = false →
        (s.interpret_crlf_as_execute = true →
          step board s 13 = some (s, [Out.key 0xB2 0])) ∧
        (s.interpret_crlf_as_execute = false →
          step board s 13 = some (s, [])))) ∧
    (∀ s : State, s.parse_key_mode = false →
      ∃ s0 out0, run board s [94, 69, 48, 94] = some (s0, out0) ∧
        s0.interpret_crlf_as_execute = false ∧ step board s0 13 = some (s0, [])) ∧
    (∀ s : State, s.parse_key_mode = false →
      ∃ s1 out1, run board s [94, 69, 49, 94] = some (s1, out1) ∧
        s1.interpret_crlf_as_execute = true ∧
        step board s1 13 = some (s1, [Out.key 0xB2 0])) := by
  have hcr : table_at board (13 : Fin 256).val = KEY_EXECUTE := by cases board <;> decide
  have hpar : parity_at board (13 : Fin 256).val = 0 := by
    rw [parity_at_eq board _ (by decide), hcr]; decide
  have hne : table_at board (13 : Fin 256).val ≠ 0 := by rw [hcr]; decide
  have hon : ∀ s : State, s.parse_key_mode = false → s.interpret_crlf_as_execute = true →
      step board s 13 = some (s, [Out.key 0xB2 0]) := by
    intro s hm hg
    rw [step_normal_mapped board s 13 hm hne (Or.inl hg), hcr, hpar]; rfl
  have hoff : ∀ s : State, s.parse_key_mode = false → s.interpret_crlf_as_execute = false →
      step board s 13 = some (s, []) :=
    fun s hm hg => step_normal_gated board s 13 hm hcr hg
  refine ⟨?_, ?_, ?_⟩
  · intro input
    obtain ⟨s, out, hrun, _, _⟩ := run_invariant board input initial initial_in_bounds
    exact ⟨s, out, hrun, fun hm => ⟨hon s hm, hoff s hm⟩⟩
  · intro s hm
    refine ⟨_, _, run_parse_key board s 69 48 hm (by decide) (by decide), ?_, ?_⟩
    · exact congrArg Parsed.interpret_crlf_as_execute (interpret_E0 board 0 _)
    · exact hoff _ rfl (congrArg Parsed.interpret_crlf_as_execute (interpret_E0 board 0 _))
  · intro s hm
    refine ⟨_, _, run_parse_key board s 69 49 hm (by decide) (by decide), ?_, ?_⟩
    · exact congrArg Parsed.interpret_crlf_as_execute (interpret_E1 board 0 _)
    · exact hon _ rfl (congrArg Parsed.interpret_crlf_as_execute (interpret_E1 board 0 _))

/-- C6, at the initial globals on the Arduino board: the carriage return after
the empty stream yields the single pair (0xB2, 0). -/
theorem execute_gate_on_carriage_return_witness :
    step Board.arduino initial 13 = some (initial, [Out.key 0xB2 0]) := by
  obtain ⟨s, out, hrun, h⟩ := (execute_gate_on_carriage_return Board.arduino).1 []
  have hs : s = initial := by
    have h2 : some (initial, ([] : List Out)) = some (s, out) := hrun
    cases h2; rfl
  subst hs
  exact (h rfl).1 rfl


/-- The parsed key `^E0^` from a normal-mode state: the flag ends cleared, the
mode normal, and the closing `^` hands the pair (0x00, 0) to the strobe
sequence. -/
theorem run_E0 (board : Board) (s : State) (hm : s.parse_key_mode = false) :
    ∃ s0, run board s [94, 69, 48, 94] = some (s0, [Out.key 0x00 0]) ∧
      s0.parse_key_mode = false ∧ s0.interpret_crlf_as_execute = false := by
  have hrun := run_parse_key board s 69 48 hm (by decide) (by decide)
  have h : interpret_parse_key board (69 : Fin 256).val (48 : Fin 256).val 0
      s.interpret_crlf_as_execute = ⟨0, [], false⟩ := interpret_E0 board 0 _
  rw [h] at hrun
  refine ⟨_, hrun, ?_, ?_⟩ <;> rfl

/-- The parsed key `^E1^` from a normal-mode state: the flag ends set, the mode
normal, and the closing `^` hands the pair (0x00, 0) to the strobe sequence. -/
theorem run_E1 (board : Board) (s : State) (hm : s.parse_key_mode = false) :
    ∃ s1, run board s [94, 69, 49, 94] = some (s1, [Out.key 0x00 0]) ∧
      s1.parse_key_mode = false ∧ s1.interpret_crlf_as_execute = true := by
  have hrun := run_parse_key board s 69 49 hm (by decide) (by decide)
  have h : interpret_parse_key board (69 : Fin 256).val (49 : Fin 256).val 0
      s.interpret_crlf_as_execute = ⟨0, [], true⟩ := interpret_E1 board 0 _
  rw [h] at hrun
  refine ⟨_, hrun, ?_, ?_⟩ <;> rfl

/-- The parsed key `^EX^` from a normal-mode state: the flag is kept and the
closing `^` hands EXECUTE (0xB2, 0) to the strobe sequence, whatever the
flag. -/
theorem run_EX (board : Board) (s : State) (hm : s.parse_key_mode = false) :
    ∃ s1, run board s [94, 69, 88, 94] = some (s1, [Out.key 0xB2 0]) ∧
      s1.parse_key_mode = false ∧
      s1.interpret_crlf_as_execute = s.interpret_crlf_as_execute := by
  have hrun := run_parse_key board s 69 88 hm (by decide) (by decide)
  have h : interpret_parse_key board (69 : Fin 256).val (88 : Fin 256).val 0
      s.interpret_crlf_as_execute = ⟨0xB2, [], s.interpret_crlf_as_execute⟩ :=
    interpret_EX board 0 _
  have hp : odd_parity 178 = 0 := by decide
  rw [h] at hrun
  simp only [ge_iff_le, List.map_nil, List.nil_append, hp] at hrun
  refine ⟨_, hrun, ?_, ?_⟩ <;> rfl

/-- C7 (what the programs do): with `interpret_crlf_as_execute` cleared by
`^E0^`, the parsed key `^EX^` still hands EXECUTE (0xB2, parity 0) to the
strobe sequence; the stream `^E0^^EX^` from the initial globals yields the
pairs (0x00, 0) and (0xB2, 0) and ends with the flag cleared. -/
theorem execute_parsed_key_passes_cleared_gate (board : Board) :
    ∃ s, run board initial [94, 69, 48, 94, 94, 69, 88, 94] =
        some (s, [Out.key 0x00 0, Out.key 0xB2 0]) ∧
      s.interpret_crlf_as_execute = false := by
  obtain ⟨s0, h0, hm0, hg0⟩ := run_E0 board initial rfl
  obtain ⟨s1, h1, _, hg1⟩ := run_EX board s0 hm0
  refine ⟨s1, ?_, hg1.trans hg0⟩
  have happ := run_append board [94, 69, 48, 94] [94, 69, 88, 94] initial
  rw [h0] at happ
  simp only [h1] at happ
  exact happ

/-- C8 (what the programs do): from every normal-mode state, for either value
of the flag, the closing `^` of `^E0^` and of `^E1^` hands the pair (0x00, 0)
to the strobe sequence; from the initial globals the first three bytes of
`^E0^` yield nothing and the fourth yields that pair. -/
theorem gate_toggle_hands_zero_to_strobe (board : Board) :
    (∀ s : State, s.parse_key_mode = false →
      ∃ s0, run board s [94, 69, 48, 94] = some (s0, [Out.key 0x00 0])) ∧
    (∀ s : State, s.parse_key_mode = false →
      ∃ s1, run board s [94, 69, 49, 94] = some (s1, [Out.key 0x00 0])) ∧
    (∃ s3 s4, run board initial [94, 69, 48] = some (s3, []) ∧
      step board s3 94 = some (s4, [Out.key 0x00 0])) := by
  refine ⟨fun s hm => ?_, fun s hm => ?_, ?_⟩
  · obtain ⟨s0, h, _⟩ := run_E0 board s hm
    exact ⟨s0, h⟩
  · obtain ⟨s1, h, _⟩ := run_E1 board s hm
    exact ⟨s1, h⟩
  · refine ⟨{ parse_key_mode := true
              parse_key_buffer := (Buffer.zero.write 0 69).write 1 48
              parse_key_buffer_index := 2
              interpret_crlf_as_execute := true },
            { parse_key_mode := false
              parse_key_buffer := ((Buffer.zero.write 0 69).write 1 48).write 2 94
              parse_key_buffer_index := -1
              interpret_crlf_as_execute := false }, ?_, ?_⟩
    · cases board <;> decide
    · cases board <;> decide


/-- Two parsed keys in a row: the second starts from the state the first
ends in. -/
theorem run_two (board : Board) (s s1 s2 : State) (u v : List (Fin 256))
    (out1 out2 : List Out) (h1 : run board s u = some (s1, out1))
    (h2 : run board s1 v = some (s2, out2)) :
    run board s (u ++ v) = some (s2, out1 ++ out2) := by
  have happ := run_append board u v s
  rw [h1] at happ
  simp only [h2] at happ
  exact happ

/-- C9: from normal mode, for either prior value of the flag, `^E0^` leaves
`interpret_crlf_as_execute` cleared and `^E1^` leaves it set (both end in
normal mode); `^E0^` followed by `^E1^` ends with the flag at its initial
value, set; and `^E0^^E0^` ends with the same flag as `^E0^`, `^E1^^E1^` with
the same flag as `^E1^`. -/
theorem gate_toggles_set_the_flag (board : Board) (s : State)
    (hm : s.parse_key_mode = false) :
    (∃ s0 out0, run board s [94, 69, 48, 94] = some (s0, out0) ∧
      s0.parse_key_mode = false ∧ s0.interpret_crlf_as_execute = false) ∧
    (∃ s1 out1, run board s [94, 69, 49, 94] = some (s1, out1) ∧
      s1.parse_key_mode = false ∧ s1.interpret_crlf_as_execute = true) ∧
    (∃ s2 out2, run board s [94, 69, 48, 94, 94, 69, 49, 94] = some (s2, out2) ∧
      s2.interpret_crlf_as_execute = true ∧
      s2.interpret_crlf_as_execute = initial.interpret_crlf_as_execute) ∧
    (∃ s0 out0 s3 out3, run board s [94, 69, 48, 94] = some (s0, out0) ∧
      run board s [94, 69, 48, 94, 94, 69, 48, 94] = some (s3, out3) ∧
      s3.interpret_crlf_as_execute = s0.interpret_crlf_as_execute) ∧
    (∃ s1 out1 s4 out4, run board s [94, 69, 49, 94] = some (s1, out1) ∧
      run board s [94, 69, 49, 94, 94, 69, 49, 94] = some (s4, out4) ∧
      s4.interpret_crlf_as_execute = s1.interpret_crlf_as_execute) := by
  obtain ⟨s0, h0, hm0, hg0⟩ := run_E0 board s hm
  obtain ⟨s1, h1, hm1, hg1⟩ := run_E1 board s hm
  obtain ⟨s2, h2, _, hg2⟩ := run_E1 board s0 hm0
  obtain ⟨s3, h3, _, hg3⟩ := run_E0 board s0 hm0
  obtain ⟨s4, h4, _, hg4⟩ := run_E1 board s1 hm1
  refine ⟨⟨s0, _, h0, hm0, hg0⟩, ⟨s1, _, h1, hm1, hg1⟩, ?_, ?_, ?_⟩
  · exact ⟨s2, _, run_two board s s0 s2 _ _ _ _ h0 h2, hg2, hg2.trans rfl⟩
  · exact ⟨s0, _, s3, _, h0, run_two board s s0 s3 _ _ _ _ h0 h3, hg3.trans hg0.symm⟩
  · exact ⟨s1, _, s4, _, h1, run_two board s s1 s4 _ _ _ _ h1 h4, hg4.trans hg1.symm⟩

/-- C9, from the initial globals on the ESP32 board. -/
theorem gate_toggles_set_the_flag_witness :
    (∃ s0 out0, run Board.esp32 initial [94, 69, 48, 94] = some (s0, out0) ∧
      s0.parse_key_mode = false ∧ s0.interpret_crlf_as_execute = false) ∧
    (∃ s1 out1, run Board.esp32 initial [94, 69, 49, 94] = some (s1, out1) ∧
      s1.parse_key_mode = false ∧ s1.interpret_crlf_as_execute = true) ∧
    (∃ s2 out2, run Board.esp32 initial [94, 69, 48, 94, 94, 69, 49, 94] = some (s2, out2) ∧
      s2.interpret_crlf_as_execute = true ∧
      s2.interpret_crlf_as_execute = initial.interpret_crlf_as_execute) ∧
    (∃ s0 out0 s3 out3, run Board.esp32 initial [94, 69, 48, 94] = some (s0, out0) ∧
      run Board.esp32 initial [94, 69, 48, 94, 94, 69, 48, 94] = some (s3, out3) ∧
      s3.interpret_crlf_as_execute = s0.interpret_crlf_as_execute) ∧
    (∃ s1 out1 s4 out4, run Board.esp32 initial [94, 69, 49, 94] = some (s1, out1) ∧
      run Board.esp32 initial [94, 69, 49, 94, 94, 69, 49, 94] = some (s4, out4) ∧
      s4.interpret_crlf_as_execute = s1.interpret_crlf_as_execute) :=
  gate_toggles_set_the_flag Board.esp32 initial rfl

/-- C10: for every state and every received byte, the step is defined
whenever the next store is within the buffer, and whenever it is defined it
leaves `interpret_crlf_as_execute` unchanged unless the byte is the `^` that
closes a parsed key (the step started in parse-key mode) and the first two
bytes of the buffer are then `E`, `0` or `E`, `1`. -/
theorem gate_changed_only_by_toggles (board : Board) (s : State) (b : Fin 256) :
    (InBounds s → ∃ s1 out, step board s b = some (s1, out)) ∧
    ∀ s1 out, step board s b = some (s1, out) →
      s1.interpret_crlf_as_execute = s.interpret_crlf_as_execute ∨
      (s.parse_key_mode = true ∧ b.val = 94 ∧ s1.parse_key_buffer.read 0 = 69 ∧
        (s1.parse_key_buffer.read 1 = 48 ∨ s1.parse_key_buffer.read 1 = 49)) := by
  refine ⟨fun h => ?_, fun s1 out hstep => ?_⟩
  · obtain ⟨s1, out, h1, _⟩ := step_invariant board s b h
    exact ⟨s1, out, h1⟩
  · by_cases hm : s.parse_key_mode = true
    · by_cases hi : 0 ≤ s.parse_key_buffer_index ∧
          s.parse_key_buffer_index < MAX_PARSE_KEY_BUFFER_LENGTH
      · by_cases hb : b.val = 94
        · rw [step_parse_close board s b hm hb hi] at hstep
          have hs1 : s1 = _ := (congrArg Prod.fst (Option.some.inj hstep)).symm
          rcases interpret_parse_key_gate board
            ((s.parse_key_buffer.write s.parse_key_buffer_index.toNat 94).read 0)
            ((s.parse_key_buffer.write s.parse_key_buffer_index.toNat 94).read 1)
            0 s.interpret_crlf_as_execute with hkeep | htoggle
          · left; rw [hs1]; exact hkeep
          · right; rw [hs1]; exact ⟨hm, hb, htoggle.1, htoggle.2⟩
        · rw [step_parse_store board s b hm hb hi] at hstep
          have hs1 : s1 = _ := (congrArg Prod.fst (Option.some.inj hstep)).symm
          left; rw [hs1]
      · rw [step_out_of_bounds board s b hm hi] at hstep
        exact Option.noConfusion hstep
    · have hm0 : s.parse_key_mode = false := by simpa using hm
      exact Or.inl (step_normal_keeps board s s1 b out hm0 hstep).1

/-! ## Parsed keys of any length -/

/-- The opening `^` and the first two bytes of a parsed key, received in
normal mode: nothing is done to the outside and the two bytes are held. -/
theorem run_open_two (board : Board) (s : State) (x y : Fin 256)
    (hm : s.parse_key_mode = false) (hx : x.val ≠ 94) (hy : y.val ≠ 94) :
    ∃ s3, run board s [94, x, y] = some (s3, []) ∧
      Holding x.val y.val s.interpret_crlf_as_execute s3 ∧
      s3.parse_key_buffer = (s.parse_key_buffer.write 0 x.val).write 1 y.val ∧
      s3.parse_key_buffer_index = 2 := by
  have h1 := step_normal_caret board s 94 hm rfl
  have h2 := step_parse_store board
    { s with parse_key_mode := true, parse_key_buffer_index := 0 } x rfl hx
    (by simp [MAX_PARSE_KEY_BUFFER_LENGTH])
  have h3 := step_parse_store board
    { s with parse_key_mode := true
             parse_key_buffer := s.parse_key_buffer.write 0 x.val
             parse_key_buffer_index := 1 } y rfl hy
    (by simp [MAX_PARSE_KEY_BUFFER_LENGTH])
  simp [MAX_PARSE_KEY_BUFFER_LENGTH] at h2 h3
  have hr0 : ((s.parse_key_buffer.write 0 x.val).write 1 y.val).read 0 = x.val := by
    rw [Buffer.read_write_ne _ 1 0 _ (by decide), Buffer.read_write_same _ 0 _ (by decide)]
  have hr1 : ((s.parse_key_buffer.write 0 x.val).write 1 y.val).read 1 = y.val :=
    Buffer.read_write_same _ 1 _ (by decide)
  refine ⟨{ s with parse_key_mode := true
                   parse_key_buffer := (s.parse_key_buffer.write 0 x.val).write 1 y.val
                   parse_key_buffer_index := 2 }, ?_, ⟨rfl, ?_, ?_, hr0, hr1, rfl⟩, rfl, rfl⟩
  · rw [run_cons board _ _ _ _ _ h1, run_cons board _ _ _ _ _ h2, run_cons board _ _ _ _ _ h3]
    simp [run, run_with]
  · show (2 : Int) ≤ 2
    decide
  · show (2 : Int) ≤ 99
    decide

/-- A further byte of a parsed key, other than `^`: nothing is done to the
outside and the first two bytes stay held. -/
theorem step_holding_store (board : Board) (s : State) (x y : Nat) (gate : Bool)
    (b : Fin 256) (h : Holding x y gate s) (hb : b.val ≠ 94) :
    ∃ s1, step board s b = some (s1, []) ∧ Holding x y gate s1 := by
  obtain ⟨hm, h2, h99, h0, h1, hg⟩ := h
  have hi : 0 ≤ s.parse_key_buffer_index ∧
      s.parse_key_buffer_index < MAX_PARSE_KEY_BUFFER_LENGTH := by
    simp only [MAX_PARSE_KEY_BUFFER_LENGTH]; omega
  have hn : s.parse_key_buffer_index.toNat ≠ 0 ∧ s.parse_key_buffer_index.toNat ≠ 1 := by
    omega
  refine ⟨_, step_parse_store board s b hm hb hi, hm, ?_, ?_, ?_, ?_, hg⟩
  · simp only [MAX_PARSE_KEY_BUFFER_LENGTH]; split <;> omega
  · simp only [MAX_PARSE_KEY_BUFFER_LENGTH]; split <;> omega
  · show (s.parse_key_buffer.write s.parse_key_buffer_index.toNat b.val).read 0 = x
    rw [Buffer.read_write_ne _ _ 0 _ hn.1]; exact h0
  · show (s.parse_key_buffer.write s.parse_key_buffer_index.toNat b.val).read 1 = y
    rw [Buffer.read_write_ne _ _ 1 _ hn.2]; exact h1

/-- Any number of further bytes other than `^`, the capacity of the buffer
exceeded or not: nothing is done to the outside and the first two bytes stay
held. -/
theorem run_holding (board : Board) (x y : Nat) (gate : Bool) (rest : List (Fin 256)) :
    ∀ s, Holding x y gate s → (∀ b ∈ rest, b.val ≠ 94) →
      ∃ s1, run board s rest = some (s1, []) ∧ Holding x y gate s1 := by
  induction rest with
  | nil => intro s h _; exact ⟨s, rfl, h⟩
  | cons b rest ih =>
    intro s h hrest
    obtain ⟨s1, hstep, h1⟩ :=
      step_holding_store board s x y gate b h (hrest b (List.mem_cons_self _ _))
    obtain ⟨s2, hrun, h2⟩ := ih s1 h1 (fun c hc => hrest c (List.mem_cons_of_mem _ hc))
    exact ⟨s2, by rw [run_cons board s s1 b rest [] hstep, hrun]; rfl, h2⟩

/-- The closing `^` while two bytes are held: the chain sees exactly those two
bytes. -/
theorem step_holding_close (board : Board) (s : State) (x y : Nat) (gate : Bool)
    (h : Holding x y gate s) :
    ∃ s1, step board s 94 =
        some (s1, parsed_outputs (interpret_parse_key board x y 0 gate)) ∧
      s1.parse_key_mode = false ∧ s1.parse_key_buffer_index = -1 ∧
      s1.interpret_crlf_as_execute =
        (interpret_parse_key board x y 0 gate).interpret_crlf_as_execute := by
  obtain ⟨hm, h2, h99, h0, h1, hg⟩ := h
  have hi : 0 ≤ s.parse_key_buffer_index ∧
      s.parse_key_buffer_index < MAX_PARSE_KEY_BUFFER_LENGTH := by
    simp only [MAX_PARSE_KEY_BUFFER_LENGTH]; omega
  have hn : s.parse_key_buffer_index.toNat ≠ 0 ∧ s.parse_key_buffer_index.toNat ≠ 1 := by
    omega
  have hp : parsed_on_close board s = interpret_parse_key board x y 0 gate := by
    unfold parsed_on_close
    rw [Buffer.read_write_ne _ _ 0 _ hn.1, Buffer.read_write_ne _ _ 1 _ hn.2, h0, h1, hg]
  have hstep := step_parse_close board s 94 hm rfl hi
  rw [hp] at hstep
  exact ⟨_, hstep, rfl, rfl, rfl⟩

/-- A parsed key `^xy...^` of any length received in normal mode: the bytes
before the closing `^` do nothing to the outside, and the closing `^` does
what the chain yields for `x`, `y`. -/
theorem run_long_key (board : Board) (s : State) (x y : Fin 256) (rest : List (Fin 256))
    (hm : s.parse_key_mode = false) (hx : x.val ≠ 94) (hy : y.val ≠ 94)
    (hrest : ∀ b ∈ rest, b.val ≠ 94) :
    ∃ s1, run board s (94 :: x :: y :: rest ++ [94]) =
        some (s1, parsed_outputs
          (interpret_parse_key board x.val y.val 0 s.interpret_crlf_as_execute)) ∧
      s1.parse_key_mode = false ∧ s1.parse_key_buffer_index = -1 ∧
      s1.interpret_crlf_as_execute =
        (interpret_parse_key board x.val y.val 0
          s.interpret_crlf_as_execute).interpret_crlf_as_execute := by
  obtain ⟨s3, h3, hold3, _, _⟩ := run_open_two board s x y hm hx hy
  obtain ⟨s4, h4, hold4⟩ := run_holding board _ _ _ rest s3 hold3 hrest
  obtain ⟨s5, h5, hm5, hi5, hg5⟩ := step_holding_close board s4 _ _ _ hold4
  have h45 : run board s4 [94] = some (s5, parsed_outputs
      (interpret_parse_key board x.val y.val 0 s.interpret_crlf_as_execute)) := by
    rw [run_cons board s4 s5 94 [] _ h5]; simp [run, run_with]
  have h35 := run_two board s3 s4 s5 rest [94] _ _ h4 h45
  have h05 := run_two board s s3 s5 [94, x, y] (rest ++ [94]) _ _ h3 h35
  exact ⟨s5, by simpa using h05, hm5, hi5, hg5⟩

/-- A pair of bytes outside the token dictionary falls through the whole
chain. -/
theorem interpret_unrecognised (board : Board) (c0 c1 : Nat) (code : Int) (gate : Bool)
    (h : (c0, c1) ∉ dictionary) :
    Inert gate (interpret_parse_key board c0 c1 code gate) := by
  unfold interpret_parse_key
  repeat (any_goals (first | apply Parsed.of_ite | intro hc))
  all_goals first
    | rfl
    | (obtain ⟨rfl, rfl⟩ := hc; exact absurd (by decide) h)
    | (obtain ⟨_, rfl, rfl⟩ := hc; exact absurd (by decide) h)

/-- For each key token the chain of `5110KBD.c` yields the scan code listed
with it, an 8-bit value, and keeps the flag. -/
theorem interpret_key_tokens : ∀ t ∈ key_tokens, ∀ gate : Bool,
    interpret_parse_key Board.arduino t.1.val t.2.1.val 0 gate = ⟨t.2.2, [], gate⟩ ∧
      t.1.val ≠ 94 ∧ t.2.1.val ≠ 94 ∧ 0 ≤ t.2.2 ∧ t.2.2 ≤ 255 := by
  decide

/-- C11: on the Arduino board, for each of the tokens LE, RI, UP, DO, SU, SD,
HO, AT, CA, CP, CM, CS received in normal mode, the opening `^` and the two
token bytes hand nothing to the strobe sequence, and the closing `^` hands it
exactly one pair: the scan code 0x34, 0xB4, 0xDF, 0x4F, 0xDE, 0x4E, 0x36,
0xB6, 0x96, 0x91, 0x93, 0x95 respectively, with its odd-parity bit; the mode
is normal afterwards. -/
theorem arduino_token_dictionary (t : Fin 256 × Fin 256 × Int) (ht : t ∈ key_tokens)
    (s : State) (hm : s.parse_key_mode = false) :
    ∃ s3 s4, run Board.arduino s [94, t.1, t.2.1] = some (s3, []) ∧
      step Board.arduino s3 94 = some (s4, [Out.key t.2.2 (odd_parity t.2.2)]) ∧
      OddParityPair t.2.2 (odd_parity t.2.2) ∧
      s4.parse_key_mode = false := by
  obtain ⟨hi, hx, hy, h0, h255⟩ := interpret_key_tokens t ht s.interpret_crlf_as_execute
  obtain ⟨s3, h3, hold3, _, _⟩ := run_open_two Board.arduino s t.1 t.2.1 hm hx hy
  obtain ⟨s4, h4, hm4, _, _⟩ := step_holding_close Board.arduino s3 _ _ _ hold3
  rw [hi] at h4
  have hout : parsed_outputs ⟨t.2.2, [], s.interpret_crlf_as_execute⟩ =
      [Out.key t.2.2 (odd_parity t.2.2)] := by
    simp [parsed_outputs, h0]
  rw [hout] at h4
  exact ⟨s3, s4, h3, h4, odd_parity_pair _ h0 h255, hm4⟩

/-- C11, at the token `^UP^` from the initial globals: the first three bytes
yield nothing and the closing `^` yields the single pair (0xDF, 1). -/
theorem arduino_token_dictionary_witness :
    ∃ s3 s4, run Board.arduino initial [94, 85, 80] = some (s3, []) ∧
      step Board.arduino s3 94 = some (s4, [Out.key 0xDF 1]) ∧
      OddParityPair 0xDF 1 ∧
      s4.parse_key_mode = false :=
  arduino_token_dictionary (85, 80, 0xDF) (by decide) initial rfl

/-- For each control code listed with a parsed key, the chain yields for the
two bytes of the key the table entry of the control code, which is not
0x00. -/
theorem interpret_ctrl_aliases (board : Board) : ∀ a ∈ ctrl_aliases, ∀ gate : Bool,
    interpret_parse_key board a.2.1.val a.2.2.val 0 gate =
        ⟨table_at board a.1.val, [], gate⟩ ∧
      table_at board a.1.val ≠ 0 ∧ a.2.1.val ≠ 94 ∧ a.2.2.val ≠ 94 := by
  intro a ha
  simp only [ctrl_aliases, List.mem_cons, List.mem_singleton, List.not_mem_nil, or_false] at ha
  rcases ha with rfl | rfl | rfl | rfl | rfl | rfl | rfl | rfl | rfl | rfl | rfl <;>
    cases board <;> decide

/-- C12: with the flag `interpret_crlf_as_execute` set and in normal mode, each
control byte hands the strobe sequence exactly the pair that its parsed key
hands it: CTRL-A as `^UP^`, CTRL-Z as `^DO^`, CTRL-P as `^RI^`, CTRL-O as
`^LE^`, CTRL-L as `^HO^`, CTRL-M as `^EX^`, CTRL-R as `^CA^`, CTRL-T as `^CS^`,
CTRL-G as `^CM^`, CTRL-B as `^CP^`, ESCAPE as `^AT^`; on both boards. -/
theorem ctrl_codes_equal_parsed_keys (board : Board) (a : Fin 256 × Fin 256 × Fin 256)
    (ha : a ∈ ctrl_aliases) (s : State) (hm : s.parse_key_mode = false)
    (hg : s.interpret_crlf_as_execute = true) :
    ∃ c p s1, step board s a.1 = some (s, [Out.key c p]) ∧
      run board s [94, a.2.1, a.2.2, 94] = some (s1, [Out.key c p]) ∧
      OddParityPair c p := by
  obtain ⟨hi, h0, hx, hy⟩ := interpret_ctrl_aliases board a ha s.interpret_crlf_as_execute
  have hr := table_at_range board a.1.val
  obtain ⟨s1, h1, _⟩ := run_long_key board s a.2.1 a.2.2 [] hm hx hy
    (fun b hb => absurd hb (List.not_mem_nil b))
  rw [hi] at h1
  have hout : parsed_outputs ⟨table_at board a.1.val, [], s.interpret_crlf_as_execute⟩ =
      [Out.key (table_at board a.1.val) (odd_parity (table_at board a.1.val))] := by
    simp [parsed_outputs, hr.1]
  rw [hout] at h1
  refine ⟨table_at board a.1.val, odd_parity (table_at board a.1.val), s1, ?_, h1,
    odd_parity_pair _ hr.1 hr.2⟩
  rw [step_normal_mapped board s a.1 hm h0 (Or.inl hg), parity_at_eq board a.1.val a.1.isLt]

/-- C12, at CTRL-A and `^UP^` from the initial globals on the Arduino board:
both hand over the pair (0xDF, 1). -/
theorem ctrl_codes_equal_parsed_keys_witness :
    ∃ c p s1, step Board.arduino initial 1 = some (initial, [Out.key c p]) ∧
      run Board.arduino initial [94, 85, 80, 94] = some (s1, [Out.key c p]) ∧
      OddParityPair c p :=
  ctrl_codes_equal_parsed_keys Board.arduino (0x01, 85, 80) (by decide) initial rfl rfl

/-- For the byte `D` followed by a digit the chain yields the delay of 100
times the digit, and nothing for the digit 0. -/
theorem interpret_delay (board : Board) : ∀ (d : Fin 10) (code : Fin 2) (gate : Bool),
    interpret_parse_key board 68 (digit_byte d).val code.val gate =
      ⟨-1, if d.val = 0 then [] else [d.val * 100], gate⟩ := by
  cases board <;> decide

/-- C13: for every digit `d` in 1 .. 9, `^Dd^` received in normal mode hands
nothing to the strobe sequence and performs exactly one delay, of `d * 100`,
keeps the flag `interpret_crlf_as_execute` and ends in normal mode; `^D0^`
performs no delay and hands nothing to the strobe sequence. -/
theorem delay_tokens (board : Board) (s : State) (hm : s.parse_key_mode = false) :
    (∀ d : Fin 10, d.val ≠ 0 →
      ∃ s1, run board s [94, 68, digit_byte d, 94] = some (s1, [Out.delay (d.val * 100)]) ∧
        s1.parse_key_mode = false ∧
        s1.interpret_crlf_as_execute = s.interpret_crlf_as_execute) ∧
    (∃ s1, run board s [94, 68, digit_byte 0, 94] = some (s1, []) ∧
      s1.parse_key_mode = false ∧
      s1.interpret_crlf_as_execute = s.interpret_crlf_as_execute) := by
  have hd : ∀ d : Fin 10, (digit_byte d).val ≠ 94 := by decide
  have key : ∀ d : Fin 10, ∃ s1, run board s [94, 68, digit_byte d, 94] =
      some (s1, (if d.val = 0 then [] else [d.val * 100]).map Out.delay) ∧
      s1.parse_key_mode = false ∧
      s1.interpret_crlf_as_execute = s.interpret_crlf_as_execute := by
    intro d
    obtain ⟨s1, h1, hm1, _, hg1⟩ := run_long_key board s 68 (digit_byte d) [] hm
      (by decide) (hd d) (fun b hb => absurd hb (List.not_mem_nil b))
    have hi := interpret_delay board d 0 s.interpret_crlf_as_execute
    rw [show (((0 : Fin 2).val : Nat) : Int) = 0 from rfl] at hi
    rw [show ((68 : Fin 256).val) = 68 from rfl, hi] at h1 hg1
    refine ⟨s1, ?_, hm1, hg1⟩
    simpa [parsed_outputs] using h1
  refine ⟨fun d hd0 => ?_, ?_⟩
  · obtain ⟨s1, h1, hm1, hg1⟩ := key d
    simp only [hd0, if_false, List.map_cons, List.map_nil] at h1
    exact ⟨s1, h1, hm1, hg1⟩
  · obtain ⟨s1, h1, hm1, hg1⟩ := key 0
    exact ⟨s1, h1, hm1, hg1⟩

/-- C13, from the initial globals on the ESP32 board: `^D3^` performs the
single delay 300, `^D0^` nothing. -/
theorem delay_tokens_witness :
    (∃ s1, run Board.esp32 initial [94, 68, 51, 94] = some (s1, [Out.delay 300]) ∧
      s1.parse_key_mode = false ∧
      s1.interpret_crlf_as_execute = initial.interpret_crlf_as_execute) ∧
    (∃ s1, run Board.esp32 initial [94, 68, 48, 94] = some (s1, []) ∧
      s1.parse_key_mode = false ∧
      s1.interpret_crlf_as_execute = initial.interpret_crlf_as_execute) :=
  ⟨(delay_tokens Board.esp32 initial rfl).1 3 (by decide),
    (delay_tokens Board.esp32 initial rfl).2⟩

/-- C14: for every pair of bytes `x`, `y`, neither of them `^`, that is not a
token of the dictionary (lower-case spellings are not), and for every further
content free of `^`, the parsed key `^xy...^` received in normal mode hands
nothing to the strobe sequence, performs no delay, keeps the flag
`interpret_crlf_as_execute` and ends in normal mode. -/
theorem unrecognised_tokens_are_inert (board : Board) (s : State) (x y : Fin 256)
    (rest : List (Fin 256)) (hm : s.parse_key_mode = false)
    (hx : x.val ≠ 94) (hy : y.val ≠ 94) (hrest : ∀ b ∈ rest, b.val ≠ 94)
    (hd : (x.val, y.val) ∉ dictionary) :
    ∃ s1, run board s (94 :: x :: y :: rest ++ [94]) = some (s1, []) ∧
      s1.parse_key_mode = false ∧
      s1.interpret_crlf_as_execute = s.interpret_crlf_as_execute := by
  obtain ⟨s1, h1, hm1, _, hg1⟩ := run_long_key board s x y rest hm hx hy hrest
  have hi : interpret_parse_key board x.val y.val 0 s.interpret_crlf_as_execute =
      ⟨-1, [], s.interpret_crlf_as_execute⟩ :=
    interpret_unrecognised board x.val y.val 0 s.interpret_crlf_as_execute hd
  rw [hi] at h1 hg1
  exact ⟨s1, h1, hm1, hg1⟩

/-- C14, at `^ZZ^`, at the lower-case `^up^` and at `^ZZ comment^`, from the
initial globals on the Arduino board. -/
theorem unrecognised_tokens_are_inert_witness :
    (∃ s1, run Board.arduino initial (94 :: 90 :: 90 :: [] ++ [94]) = some (s1, []) ∧
      s1.parse_key_mode = false ∧
      s1.interpret_crlf_as_execute = initial.interpret_crlf_as_execute) ∧
    (∃ s1, run Board.arduino initial (94 :: 117 :: 112 :: [] ++ [94]) = some (s1, []) ∧
      s1.parse_key_mode = false ∧
      s1.interpret_crlf_as_execute = initial.interpret_crlf_as_execute) ∧
    (∃ s1, run Board.arduino initial
        (94 :: 90 :: 90 :: [32, 99, 111, 109, 109, 101, 110, 116] ++ [94]) = some (s1, []) ∧
      s1.parse_key_mode = false ∧
      s1.interpret_crlf_as_execute = initial.interpret_crlf_as_execute) :=
  ⟨unrecognised_tokens_are_inert Board.arduino initial 90 90 [] rfl (by decide) (by decide)
      (fun b hb => absurd hb (List.not_mem_nil b)) (by decide),
    unrecognised_tokens_are_inert Board.arduino initial 117 112 [] rfl (by decide) (by decide)
      (fun b hb => absurd hb (List.not_mem_nil b)) (by decide),
    unrecognised_tokens_are_inert Board.arduino initial 90 90
      [32, 99, 111, 109, 109, 101, 110, 116] rfl (by decide) (by decide)
      (fun b hb => by
        simp only [List.mem_cons, List.mem_singleton, List.not_mem_nil, or_false] at hb
        rcases hb with rfl | rfl | rfl | rfl | rfl | rfl | rfl | rfl <;> decide)
      (by decide)⟩

/-- C15: for every token body `x y rest` free of `^`, of any length (also
above the 100 bytes of the buffer), received in normal mode, the bytes before
the closing `^` do nothing to the outside, and the closing `^` does the same
(pair handed to the strobe sequence, delay, new value of the flag, normal
mode) as the closing `^` of `^xy^`. -/
theorem only_first_two_bytes_matter (board : Board) (s : State) (x y : Fin 256)
    (rest : List (Fin 256)) (hm : s.parse_key_mode = false)
    (hx : x.val ≠ 94) (hy : y.val ≠ 94) (hrest : ∀ b ∈ rest, b.val ≠ 94) :
    ∃ sa sb s1 s2 out,
      run board s (94 :: x :: y :: rest) = some (sa, []) ∧
      step board sa 94 = some (s1, out) ∧
      run board s [94, x, y] = some (sb, []) ∧
      step board sb 94 = some (s2, out) ∧
      s1.interpret_crlf_as_execute = s2.interpret_crlf_as_execute ∧
      s1.parse_key_mode = false ∧ s2.parse_key_mode = false := by
  obtain ⟨sb, hb, holdb, _, _⟩ := run_open_two board s x y hm hx hy
  obtain ⟨sa, ha, holda⟩ := run_holding board _ _ _ rest sb holdb hrest
  obtain ⟨s1, h1, hm1, _, hg1⟩ := step_holding_close board sa _ _ _ holda
  obtain ⟨s2, h2, hm2, _, hg2⟩ := step_holding_close board sb _ _ _ holdb
  have hab := run_two board s sb sa [94, x, y] rest _ _ hb ha
  exact ⟨sa, sb, s1, s2, _, by simpa using hab, h1, hb, h2, hg1.trans hg2.symm, hm1, hm2⟩

/-- C15, at the body `UP` followed by 120 letters `A` (122 bytes, more than the
buffer holds), from the initial globals on the Arduino board. -/
theorem only_first_two_bytes_matter_witness :
    ∃ sa sb s1 s2 out,
      run Board.arduino initial (94 :: 85 :: 80 :: List.replicate 120 65) = some (sa, []) ∧
      step Board.arduino sa 94 = some (s1, out) ∧
      run Board.arduino initial [94, 85, 80] = some (sb, []) ∧
      step Board.arduino sb 94 = some (s2, out) ∧
      s1.interpret_crlf_as_execute = s2.interpret_crlf_as_execute ∧
      s1.parse_key_mode = false ∧ s2.parse_key_mode = false :=
  only_first_two_bytes_matter Board.arduino initial 85 80 (List.replicate 120 65) rfl
    (by decide) (by decide)
    (fun b hb => by rw [List.eq_of_mem_replicate hb]; decide)

/-! ## The buffer index -/

/-- One byte keeps the index within the buffer in parse-key mode and at -1 in
normal mode, and its store, if any, is within the buffer. -/
theorem step_index_invariant (board : Board) (s : State) (b : Fin 256)
    (h : IndexInvariant s) :
    ∃ s1 out, step board s b = some (s1, out) ∧ IndexInvariant s1 := by
  by_cases hm : s.parse_key_mode = true
  · have h99 := h.1 hm
    have hi : 0 ≤ s.parse_key_buffer_index ∧
        s.parse_key_buffer_index < MAX_PARSE_KEY_BUFFER_LENGTH := by
      simp only [MAX_PARSE_KEY_BUFFER_LENGTH]; omega
    by_cases hb : b.val = 94
    · refine ⟨_, _, step_parse_close board s b hm hb hi, ?_, ?_⟩
      · intro hmode; simp at hmode
      · intro _; rfl
    · refine ⟨_, _, step_parse_store board s b hm hb hi, ?_, ?_⟩
      · intro _
        simp only [MAX_PARSE_KEY_BUFFER_LENGTH]
        split <;> omega
      · intro hmode
        have : s.parse_key_mode = false := hmode
        rw [hm] at this
        exact Bool.noConfusion this
  · have hm0 : s.parse_key_mode = false := by simpa using hm
    by_cases h0 : table_at board b.val = 0
    · by_cases hb : b.val = 94
      · refine ⟨_, _, step_normal_caret board s b hm0 hb, ?_, ?_⟩
        · intro _
          refine ⟨le_refl _, ?_⟩
          show (0 : Int) ≤ 99
          decide
        · intro hmode; simp at hmode
      · exact ⟨_, _, step_normal_unmapped board s b hm0 h0 hb, h⟩
    · by_cases hg : s.interpret_crlf_as_execute = true ∨ table_at board b.val ≠ KEY_EXECUTE
      · exact ⟨_, _, step_normal_mapped board s b hm0 h0 hg, h⟩
      · have he : table_at board b.val = KEY_EXECUTE := by
          by_contra hne; exact hg (Or.inr hne)
        have hgate : s.interpret_crlf_as_execute = false := by
          cases hgv : s.interpret_crlf_as_execute
          · rfl
          · exact absurd (Or.inl hgv) hg
        exact ⟨_, _, step_normal_gated board s b hm0 he hgate, h⟩

/-- A whole stream keeps the index within the buffer in parse-key mode and at
-1 in normal mode; no store leaves the buffer. -/
theorem run_index_invariant (board : Board) (input : List (Fin 256)) :
    ∀ s, IndexInvariant s → ∃ s1 out, run board s input = some (s1, out) ∧
      IndexInvariant s1 := by
  induction input with
  | nil => intro s h; exact ⟨s, [], rfl, h⟩
  | cons b rest ih =>
    intro s h
    obtain ⟨s1, out1, hstep, h1⟩ := step_index_invariant board s b h
    obtain ⟨s2, out2, hrun, h2⟩ := ih s1 h1
    exact ⟨s2, out1 ++ out2, by rw [run_cons board s s1 b rest out1 hstep, hrun]; rfl, h2⟩

theorem initial_index_invariant : IndexInvariant initial :=
  ⟨fun h => absurd h (by decide), fun _ => rfl⟩

/-- C16: the per-byte step is defined on, and keeps, the invariant
"parse-key mode implies `0 ≤ parse_key_buffer_index ≤ 99`, normal mode implies
`parse_key_buffer_index = -1`"; hence every stream processed from the initial
globals, however long an unterminated parsed key in it, is processed without a
store outside `parse_key_buffer[0 .. 99]` and ends in a state with the
invariant. -/
theorem buffer_writes_in_bounds (board : Board) :
    (∀ (s : State) (b : Fin 256),
      ((s.parse_key_mode = true →
          0 ≤ s.parse_key_buffer_index ∧ s.parse_key_buffer_index ≤ 99) ∧
        (s.parse_key_mode = false → s.parse_key_buffer_index = -1)) →
      ∃ s1 out, step board s b = some (s1, out) ∧
        (s1.parse_key_mode = true →
          0 ≤ s1.parse_key_buffer_index ∧ s1.parse_key_buffer_index ≤ 99) ∧
        (s1.parse_key_mode = false → s1.parse_key_buffer_index = -1)) ∧
    (∀ input : List (Fin 256), ∃ s out, run board initial input = some (s, out) ∧
      (s.parse_key_mode = true →
        0 ≤ s.parse_key_buffer_index ∧ s.parse_key_buffer_index ≤ 99) ∧
      (s.parse_key_mode = false → s.parse_key_buffer_index = -1)) ∧
    (∀ (s : State) (b : Fin 256), s.parse_key_mode = true →
      ¬ (0 ≤ s.parse_key_buffer_index ∧ s.parse_key_buffer_index ≤ 99) →
      step board s b = none) := by
  refine ⟨fun s b h => ?_, fun input => ?_, fun s b hm hi => ?_⟩
  · obtain ⟨s1, out, hstep, h1⟩ := step_index_invariant board s b h
    exact ⟨s1, out, hstep, h1⟩
  · obtain ⟨s, out, hrun, h⟩ := run_index_invariant board input initial initial_index_invariant
    exact ⟨s, out, hrun, h⟩
  · apply step_out_of_bounds board s b hm
    simp only [MAX_PARSE_KEY_BUFFER_LENGTH]
    omega

/-- C16, on the Arduino board: an opening `^` followed by 150 letters `A` and
no closing `^` is processed without a store outside the buffer. -/
theorem buffer_writes_in_bounds_witness :
    ∃ s out, run Board.arduino initial (94 :: List.replicate 150 65) = some (s, out) ∧
      (s.parse_key_mode = true →
        0 ≤ s.parse_key_buffer_index ∧ s.parse_key_buffer_index ≤ 99) ∧
      (s.parse_key_mode = false → s.parse_key_buffer_index = -1) :=
  (buffer_writes_in_bounds Board.arduino).2.1 (94 :: List.replicate 150 65)

/-! ## Single bytes -/

/-- C17: in normal mode, for either value of the flag, the byte `^` (0x5E)
reads the table entry 0x00, hands nothing to the strobe sequence, performs no
delay, switches to parse-key mode and sets `parse_key_buffer_index` to 0; the
flag `interpret_crlf_as_execute` (and the buffer) are left as they were. -/
theorem entering_parse_key_mode (board : Board) (s : State)
    (hm : s.parse_key_mode = false) :
    table_at board 94 = 0x00 ∧
    ∃ s1, step board s 94 = some (s1, []) ∧
      s1.parse_key_mode = true ∧ s1.parse_key_buffer_index = 0 ∧
      s1.interpret_crlf_as_execute = s.interpret_crlf_as_execute ∧
      s1.parse_key_buffer = s.parse_key_buffer :=
  ⟨table_at_caret board, _, step_normal_caret board s 94 hm rfl, rfl, rfl, rfl, rfl⟩

/-- C17, from the initial globals on both boards. -/
theorem entering_parse_key_mode_witness :
    (table_at Board.arduino 94 = 0x00 ∧
      ∃ s1, step Board.arduino initial 94 = some (s1, []) ∧
        s1.parse_key_mode = true ∧ s1.parse_key_buffer_index = 0 ∧
        s1.interpret_crlf_as_execute = initial.interpret_crlf_as_execute ∧
        s1.parse_key_buffer = initial.parse_key_buffer) ∧
    (table_at Board.esp32 94 = 0x00 ∧
      ∃ s1, step Board.esp32 initial 94 = some (s1, []) ∧
        s1.parse_key_mode = true ∧ s1.parse_key_buffer_index = 0 ∧
        s1.interpret_crlf_as_execute = initial.interpret_crlf_as_execute ∧
        s1.parse_key_buffer = initial.parse_key_buffer) :=
  ⟨entering_parse_key_mode Board.arduino initial rfl,
    entering_parse_key_mode Board.esp32 initial rfl⟩

/-- C18: in parse-key mode, for every byte other than `^` (bytes with a scan
code and the carriage return included), the step is defined whenever the index
is within the buffer, and whenever it is defined it hands nothing to the
strobe sequence, performs no delay, stays in parse-key mode and keeps the flag
`interpret_crlf_as_execute`. -/
theorem nothing_emitted_inside_token (board : Board) (s : State) (b : Fin 256)
    (hm : s.parse_key_mode = true) (hb : b.val ≠ 94) :
    ((0 ≤ s.parse_key_buffer_index ∧ s.parse_key_buffer_index ≤ 99) →
      ∃ s1, step board s b = some (s1, [])) ∧
    ∀ s1 out, step board s b = some (s1, out) →
      out = [] ∧ s1.parse_key_mode = true ∧
        s1.interpret_crlf_as_execute = s.interpret_crlf_as_execute := by
  by_cases hi : 0 ≤ s.parse_key_buffer_index ∧
      s.parse_key_buffer_index < MAX_PARSE_KEY_BUFFER_LENGTH
  · have hstep := step_parse_store board s b hm hb hi
    refine ⟨fun _ => ⟨_, hstep⟩, fun s1 out h => ?_⟩
    rw [hstep] at h
    have h1 := Option.some.inj h
    have hs1 : s1 = _ := (congrArg Prod.fst h1).symm
    have hout : out = [] := (congrArg Prod.snd h1).symm
    rw [hs1]
    exact ⟨hout, hm, rfl⟩
  · have hnone := step_out_of_bounds board s b hm hi
    refine ⟨fun h99 => absurd ?_ hi, fun s1 out h => ?_⟩
    · simp only [MAX_PARSE_KEY_BUFFER_LENGTH]; omega
    · rw [hnone] at h
      exact Option.noConfusion h

/-- C18, right after an opening `^` on the Arduino board, at the carriage
return (13) and at the letter `A` (65), which both have a scan code. -/
theorem nothing_emitted_inside_token_witness :
    (∃ s1, step Board.arduino
        { initial with parse_key_mode := true, parse_key_buffer_index := 0 } 13 =
          some (s1, [])) ∧
    (∃ s1, step Board.arduino
        { initial with parse_key_mode := true, parse_key_buffer_index := 0 } 65 =
          some (s1, [])) :=
  ⟨(nothing_emitted_inside_token Board.arduino
      { initial with parse_key_mode := true, parse_key_buffer_index := 0 } 13 rfl
      (by decide)).1 (by decide),
    (nothing_emitted_inside_token Board.arduino
      { initial with parse_key_mode := true, parse_key_buffer_index := 0 } 65 rfl
      (by decide)).1 (by decide)⟩

/-- C19: in normal mode, for every byte other than `^` whose table entry is
0x00, the step hands nothing to the strobe sequence, performs no delay and
leaves all globals (mode, buffer, buffer index, flag) as they were. -/
theorem unmapped_input_is_dropped (board : Board) (s : State) (b : Fin 256)
    (hm : s.parse_key_mode = false) (hb : b.val ≠ 94) (h0 : table_at board b.val = 0x00) :
    step board s b = some (s, []) :=
  step_normal_unmapped board s b hm h0 hb

/-- C19, at the byte `!` (33) from the initial globals on both boards, and at
the line feed (10) on the Arduino board. -/
theorem unmapped_input_is_dropped_witness :
    step Board.arduino initial 33 = some (initial, []) ∧
      step Board.esp32 initial 33 = some (initial, []) ∧
      step Board.arduino initial 10 = some (initial, []) :=
  ⟨unmapped_input_is_dropped Board.arduino initial 33 rfl (by decide) (by decide),
    unmapped_input_is_dropped Board.esp32 initial 33 rfl (by decide) (by decide),
    unmapped_input_is_dropped Board.arduino initial 10 rfl (by decide) (by decide)⟩

/-! ## The strobe sequence -/

/-- The lines after the first part of the strobe sequence, from all lines
released, checked for every scan code and both parities. -/
theorem strobe_assert_pins : ∀ (n : Fin 256) (p : Fin 2),
    (∀ k : Fin 8, pin_exec idle (strobe_assert n.val p.val) (data_pin k) = PinMode.OUTPUT ↔
      Nat.testBit n.val (7 - k.val) = false) ∧
    (pin_exec idle (strobe_assert n.val p.val) Pin.PIN_KBD_P = PinMode.OUTPUT ↔ p.val = 0) ∧
    pin_exec idle (strobe_assert n.val p.val) Pin.PIN_KBD_STROBE = PinMode.OUTPUT := by
  decide!

/-- A delay changes no line. -/
theorem pin_exec_delay (pins : Pins) (ops : List PinOp) (d : Nat) :
    pin_exec pins (ops ++ [PinOp.delay d]) = pin_exec pins ops := by
  simp [pin_exec, List.foldl_append, pin_step]

/-- C20: for every scan code `n` in 0 .. 255 and parity `p` in 0 .. 1, the
strobe sequence is "lines on, `delay(10)`, lines off", and from all lines
released the lines during the delay (the strobe being on) are: the data line
`KBD_k` is driven (`OUTPUT`) exactly when bit `7 - k` of `n` (mask
`0x80 >> k`) is 0 and is released (`INPUT`) when that bit is 1, the parity
line is driven exactly when `p = 0`, and the strobe line is driven. -/
theorem lines_asserted_during_strobe (n : Fin 256) (p : Fin 2) :
    strobe_sequence n.val p.val =
      strobe_assert n.val p.val ++ PinOp.delay 10 :: strobe_release n.val p.val ∧
    (∀ k : Fin 8,
      pin_exec idle (strobe_assert n.val p.val ++ [PinOp.delay 10]) (data_pin k) =
        PinMode.OUTPUT ↔ Nat.testBit n.val (7 - k.val) = false) ∧
    (∀ k : Fin 8, Nat.testBit n.val (7 - k.val) = true →
      pin_exec idle (strobe_assert n.val p.val ++ [PinOp.delay 10]) (data_pin k) =
        PinMode.INPUT) ∧
    (pin_exec idle (strobe_assert n.val p.val ++ [PinOp.delay 10]) Pin.PIN_KBD_P =
      PinMode.OUTPUT ↔ p.val = 0) ∧
    pin_exec idle (strobe_assert n.val p.val ++ [PinOp.delay 10]) Pin.PIN_KBD_STROBE =
      PinMode.OUTPUT := by
  obtain ⟨hdata, hpar, hstrobe⟩ := strobe_assert_pins n p
  rw [pin_exec_delay]
  refine ⟨rfl, hdata, fun k hk => ?_, hpar, hstrobe⟩
  cases hmode : pin_exec idle (strobe_assert n.val p.val) (data_pin k) with
  | INPUT => rfl
  | OUTPUT =>
    have hbit := (hdata k).mp hmode
    rw [hk] at hbit
    exact Bool.noConfusion hbit

/-! ## The lines between bytes -/

theorem pin_exec_append (pins : Pins) (a b : List PinOp) :
    pin_exec pins (a ++ b) = pin_exec (pin_exec pins a) b := by
  simp [pin_exec, List.foldl_append]

theorem pin_exec_cons (pins : Pins) (op : PinOp) (ops : List PinOp) :
    pin_exec pins (op :: ops) = pin_exec (pin_step pins op) ops :=
  rfl

theorem pin_exec_nil (pins : Pins) : pin_exec pins [] = pins :=
  rfl

theorem pin_exec_pull (pins : Pins) (c m : Int) (pin : Pin) (mode : PinMode) (q : Pin) :
    pin_exec pins (pull c m pin mode) q =
      if Int.land c m = 0 ∧ q = pin then mode else pins q := by
  unfold pull
  by_cases h : Int.land c m = 0
  · simp [h, pin_exec, pin_step]
  · simp [h, pin_exec]

theorem pin_exec_if (pins : Pins) (c : Prop) [Decidable c] (pin : Pin) (mode : PinMode)
    (q : Pin) :
    pin_exec pins (if c then [PinOp.pinMode pin mode] else []) q =
      if c ∧ q = pin then mode else pins q := by
  by_cases h : c
  · simp [h, pin_exec, pin_step]
  · simp [h, pin_exec]

theorem pin_step_at (pins : Pins) (pin : Pin) (mode : PinMode) (q : Pin) :
    pin_step pins (PinOp.pinMode pin mode) q = if q = pin then mode else pins q :=
  rfl

/-- The strobe sequence leaves released lines released, whatever the pair. -/
theorem strobe_sequence_idle (c p : Int) : pin_exec idle (strobe_sequence c p) = idle := by
  funext q
  simp only [strobe_sequence, strobe_assert, strobe_release, FALSE, pin_exec_append,
    pin_exec_cons, pin_exec_nil, pin_exec_pull, pin_exec_if, pin_step_at, pin_step, idle]
  cases q <;> simp

theorem pin_trace_idle : ∀ out : List Out, pin_exec idle (pin_trace out) = idle := by
  intro out
  induction out with
  | nil => rfl
  | cons o rest ih =>
    have ho : pin_exec idle (pin_ops o) = idle := by
      cases o with
      | delay n => rfl
      | key c p => exact strobe_sequence_idle c p
    rw [pin_trace, pin_exec_append, ho, ih]

theorem pin_trace_without_events : ∀ out : List Out, events out = [] →
    ∀ op ∈ pin_trace out, ∃ n, op = PinOp.delay n := by
  intro out
  induction out with
  | nil => intro _ op hop; simp [pin_trace] at hop
  | cons o rest ih =>
    intro he op hop
    cases o with
    | key c p => simp [events] at he
    | delay n =>
      simp only [events] at he
      simp only [pin_trace, pin_ops, List.singleton_append, List.mem_cons] at hop
      rcases hop with h | h
      · exact ⟨n, h⟩
      · exact ih he op h

theorem mem_pull (op : PinOp) (c m : Int) (pin : Pin) (mode : PinMode) :
    op ∈ pull c m pin mode ↔ Int.land c m = 0 ∧ op = PinOp.pinMode pin mode := by
  unfold pull
  by_cases h : Int.land c m = 0 <;> simp [h]

theorem mem_if_singleton (op : PinOp) (c : Prop) [Decidable c] (x : PinOp) :
    op ∈ (if c then [x] else []) ↔ c ∧ op = x := by
  by_cases h : c <;> simp [h]

/-- The lines switched on by the first part of the strobe sequence are the
lines switched off by its last part. -/
theorem released_are_asserted (c p : Int) (pin : Pin) :
    PinOp.pinMode pin PinMode.OUTPUT ∈ strobe_assert c p ↔
      PinOp.pinMode pin PinMode.INPUT ∈ strobe_release c p := by
  simp only [strobe_assert, strobe_release, FALSE, List.mem_append, mem_pull,
    mem_if_singleton, List.mem_singleton]
  cases pin <;> simp

/-- C21: starting with all ten lines released, for every stream processed
from the initial globals the lines are all released again once the outputs of
the stream (hence of each of its prefixes) have been performed; the same after
the outputs of any single byte; a byte that hands nothing to the strobe
sequence performs no `pinMode` at all (at most a delay); and the strobe
sequence switches off exactly the lines it switched on. -/
theorem bus_idle_between_bytes (board : Board) :
    (∀ input : List (Fin 256), ∃ s out, run board initial input = some (s, out) ∧
      pin_exec idle (pin_trace out) = idle) ∧
    (∀ (s s1 : State) (b : Fin 256) (out : List Out), step board s b = some (s1, out) →
      pin_exec idle (pin_trace out) = idle ∧
      (events out = [] → ∀ op ∈ pin_trace out, ∃ n, op = PinOp.delay n)) ∧
    (∀ (c p : Int) (pin : Pin),
      PinOp.pinMode pin PinMode.OUTPUT ∈ strobe_assert c p ↔
        PinOp.pinMode pin PinMode.INPUT ∈ strobe_release c p) := by
  refine ⟨fun input => ?_, fun s s1 b out _ => ?_, released_are_asserted⟩
  · obtain ⟨s, out, hrun, _⟩ := run_invariant board input initial initial_in_bounds
    exact ⟨s, out, hrun, pin_trace_idle out⟩
  · exact ⟨pin_trace_idle out, pin_trace_without_events out⟩

/-- C21, at the letter `A` from the initial globals on the Arduino board: the
strobe sequence for (0x0B, 1) is performed and the lines are released
again. -/
theorem bus_idle_between_bytes_witness :
    pin_exec idle (pin_trace [Out.key 0x0B 1]) = idle ∧
      (events [Out.key 0x0B 1] = [] →
        ∀ op ∈ pin_trace [Out.key 0x0B 1], ∃ n, op = PinOp.delay n) :=
  (bus_idle_between_bytes Board.arduino).2.1 initial initial 65 [Out.key 0x0B 1] (by decide)

/-- C22: for every pair handed to the strobe sequence, the operations are, in
this order: the data and parity lines going on (no other operation among
them), the strobe going on, one `delay(10)` whatever the scan code, the strobe
going off, the data and parity lines going off (no other operation among
them). -/
theorem strobe_sequence_order (c p : Int) :
    pin_ops (Out.key c p) =
      lines_on c p ++
        [PinOp.pinMode Pin.PIN_KBD_STROBE PinMode.OUTPUT, PinOp.delay 10,
          PinOp.pinMode Pin.PIN_KBD_STROBE PinMode.INPUT] ++
        lines_off c p ∧
    (∀ op ∈ lines_on c p,
      ∃ pin, pin ≠ Pin.PIN_KBD_STROBE ∧ op = PinOp.pinMode pin PinMode.OUTPUT) ∧
    (∀ op ∈ lines_off c p,
      ∃ pin, pin ≠ Pin.PIN_KBD_STROBE ∧ op = PinOp.pinMode pin PinMode.INPUT) := by
  refine ⟨?_, ?_, ?_⟩
  · simp [pin_ops, strobe_sequence, strobe_assert, strobe_release, lines_on, lines_off,
      List.append_assoc]
  · intro op hop
    simp only [lines_on, List.mem_append, mem_pull, mem_if_singleton] at hop
    rcases hop with (((((((⟨_, h⟩ | ⟨_, h⟩) | ⟨_, h⟩) | ⟨_, h⟩) | ⟨_, h⟩) | ⟨_, h⟩) | ⟨_, h⟩) |
      ⟨_, h⟩) | ⟨_, h⟩ <;> exact ⟨_, by decide, h⟩
  · intro op hop
    simp only [lines_off, List.mem_append, mem_pull, mem_if_singleton] at hop
    rcases hop with (((((((⟨_, h⟩ | ⟨_, h⟩) | ⟨_, h⟩) | ⟨_, h⟩) | ⟨_, h⟩) | ⟨_, h⟩) | ⟨_, h⟩) |
      ⟨_, h⟩) | ⟨_, h⟩ <;> exact ⟨_, by decide, h⟩

/-- The chain performs a delay only in branches that set `out_scan_code` to
-1. -/
theorem interpret_parse_key_one_action (board : Board) (c0 c1 : Nat) (gate : Bool) :
    OneAction (interpret_parse_key board c0 c1 0 gate) := by
  unfold interpret_parse_key
  repeat (any_goals (first | apply Parsed.of_ite | intro _))
  all_goals first
    | exact Or.inr rfl
    | exact Or.inl ⟨Nat.le_refl 1, rfl⟩

/-! ## Order of the outputs -/

/-- One byte yields at most one output: nothing, one delay, or one pair. -/
theorem step_at_most_one (board : Board) (s s1 : State) (b : Fin 256) (out : List Out)
    (h : step board s b = some (s1, out)) : out.length ≤ 1 := by
  by_cases hm : s.parse_key_mode = true
  · by_cases hi : 0 ≤ s.parse_key_buffer_index ∧
        s.parse_key_buffer_index < MAX_PARSE_KEY_BUFFER_LENGTH
    · by_cases hb : b.val = 94
      · rw [step_parse_close board s b hm hb hi] at h
        have hout : out = _ := (congrArg Prod.snd (Option.some.inj h)).symm
        rw [hout]
        have key : ∀ r : Parsed, OneAction r →
            (r.delays.map Out.delay ++
              if r.out_scan_code ≥ 0 then [Out.key r.out_scan_code (odd_parity r.out_scan_code)]
              else []).length ≤ 1 := by
          intro r hr
          rcases hr with ⟨hd, hc⟩ | hd
          · have : ¬ r.out_scan_code ≥ 0 := by rw [hc]; decide
            simp [this, hd]
          · rw [hd]; split <;> simp
        exact key _ (interpret_parse_key_one_action board _ _ _)
      · rw [step_parse_store board s b hm hb hi] at h
        have hout : out = [] := (congrArg Prod.snd (Option.some.inj h)).symm
        rw [hout]; decide
    · rw [step_out_of_bounds board s b hm hi] at h
      exact Option.noConfusion h
  · have hm0 : s.parse_key_mode = false := by simpa using hm
    have hcases : out = [] ∨ ∃ c p, out = [Out.key c p] := by
      by_cases h0 : table_at board b.val = 0
      · by_cases hb : b.val = 94
        · rw [step_normal_caret board s b hm0 hb] at h
          exact Or.inl (congrArg Prod.snd (Option.some.inj h)).symm
        · rw [step_normal_unmapped board s b hm0 h0 hb] at h
          exact Or.inl (congrArg Prod.snd (Option.some.inj h)).symm
      · by_cases hg : s.interpret_crlf_as_execute = true ∨ table_at board b.val ≠ KEY_EXECUTE
        · rw [step_normal_mapped board s b hm0 h0 hg] at h
          exact Or.inr ⟨_, _, (congrArg Prod.snd (Option.some.inj h)).symm⟩
        · have he : table_at board b.val = KEY_EXECUTE := by
            by_contra hne; exact hg (Or.inr hne)
          have hgate : s.interpret_crlf_as_execute = false := by
            cases hgv : s.interpret_crlf_as_execute
            · rfl
            · exact absurd (Or.inl hgv) hg
          rw [step_normal_gated board s b hm0 he hgate] at h
          exact Or.inl (congrArg Prod.snd (Option.some.inj h)).symm
    rcases hcases with h1 | ⟨c, p, h1⟩ <;> rw [h1] <;> simp

theorem events_length_le : ∀ out : List Out, (events out).length ≤ out.length := by
  intro out
  induction out with
  | nil => simp [events]
  | cons o rest ih =>
    cases o with
    | delay n => simp only [events, List.length_cons]; omega
    | key c p => simp only [events, List.length_cons]; omega

/-- C23: each received byte yields at most one output (at most one pair for
the strobe sequence, and never a pair together with a delay), and for all
streams `u` and `v` and every state, the outputs of processing `u ++ v` are
the outputs of processing `u` followed by the outputs of processing `v` from
the state reached after `u` (and `u ++ v` is processed exactly when both
are). -/
theorem outputs_follow_input_order (board : Board) :
    (∀ (s s1 : State) (b : Fin 256) (out : List Out), step board s b = some (s1, out) →
      out.length ≤ 1 ∧ (events out).length ≤ 1) ∧
    (∀ (s : State) (u v : List (Fin 256)),
      run board s (u ++ v) =
        match run board s u with
        | none => none
        | some (s1, out1) => (run board s1 v).map (fun r => (r.1, out1 ++ r.2))) := by
  refine ⟨fun s s1 b out h => ?_, fun s u v => run_append board u v s⟩
  have h1 := step_at_most_one board s s1 b out h
  exact ⟨h1, le_trans (events_length_le out) h1⟩

/-- C23, at the streams `A` and `^UP^` from the initial globals on the Arduino
board: the pair of `A` comes first, then the pair of the parsed key. -/
theorem outputs_follow_input_order_witness :
    run Board.arduino initial ([65] ++ [94, 85, 80, 94]) =
      match run Board.arduino initial [65] with
      | none => none
      | some (s1, out1) =>
        (run Board.arduino s1 [94, 85, 80, 94]).map (fun r => (r.1, out1 ++ r.2)) :=
  (outputs_follow_input_order Board.arduino).2 initial [65] [94, 85, 80, 94]

/-! ## The code tables -/

/-- C24 (counterexample): in the table of `5110KBD.c` the entry of the line
feed (10) is 0x00, not EXECUTE, and a line feed received in normal mode from
the initial globals (flag set) hands nothing to the strobe sequence; so it is
not the case that both tables map both line terminators to 0xB2. -/
theorem line_feed_unmapped_on_arduino :
    table_at Board.arduino 10 = 0x00 ∧
      step Board.arduino initial 10 = some (initial, []) ∧
      ¬ (∀ board : Board, table_at board 13 = 0xB2 ∧ table_at board 10 = 0xB2) := by
  refine ⟨by decide, by decide, fun h => ?_⟩
  exact absurd (h Board.arduino).2 (by decide)

/-- C24 (amended): the carriage return (13) maps to EXECUTE 0xB2 in both
tables; the line feed (10) maps to 0xB2 in the table of the ESP32 program and
to 0x00 in the table of `5110KBD.c`. In normal mode, with the flag set each
byte that maps to EXECUTE hands one pair (0xB2, 0) to the strobe sequence, with
the flag cleared it hands nothing; the line feed on the Arduino board hands
nothing either way. -/
theorem line_terminators (s : State) (hm : s.parse_key_mode = false) :
    table_at Board.arduino 13 = 0xB2 ∧ table_at Board.esp32 13 = 0xB2 ∧
    table_at Board.esp32 10 = 0xB2 ∧ table_at Board.arduino 10 = 0x00 ∧
    (∀ board : Board,
      (s.interpret_crlf_as_execute = true → step board s 13 = some (s, [Out.key 0xB2 0])) ∧
      (s.interpret_crlf_as_execute = false → step board s 13 = some (s, []))) ∧
    (s.interpret_crlf_as_execute = true →
      step Board.esp32 s 10 = some (s, [Out.key 0xB2 0])) ∧
    (s.interpret_crlf_as_execute = false → step Board.esp32 s 10 = some (s, [])) ∧
    step Board.arduino s 10 = some (s, []) := by
  have hmapped : ∀ (board : Board) (b : Fin 256), table_at board b.val = KEY_EXECUTE →
      (s.interpret_crlf_as_execute = true → step board s b = some (s, [Out.key 0xB2 0])) ∧
      (s.interpret_crlf_as_execute = false → step board s b = some (s, [])) := by
    intro board b hb
    have hpar : parity_at board b.val = 0 := by
      rw [parity_at_eq board _ b.isLt, hb]; decide
    have hne : table_at board b.val ≠ 0 := by rw [hb]; decide
    refine ⟨fun hg => ?_, fun hg => step_normal_gated board s b hm hb hg⟩
    rw [step_normal_mapped board s b hm hne (Or.inl hg), hb, hpar]; rfl
  have hcr : ∀ board : Board, table_at board (13 : Fin 256).val = KEY_EXECUTE := by
    intro board; cases board <;> decide
  have hlf : table_at Board.esp32 (10 : Fin 256).val = KEY_EXECUTE := by decide
  refine ⟨by decide, by decide, by decide, by decide, fun board => hmapped board 13 (hcr board),
    (hmapped Board.esp32 10 hlf).1, (hmapped Board.esp32 10 hlf).2, ?_⟩
  exact step_normal_unmapped Board.arduino s 10 hm (by decide) (by decide)

/-- C24 (amended), from the initial globals. -/
theorem line_terminators_witness :
    table_at Board.arduino 13 = 0xB2 ∧ table_at Board.esp32 13 = 0xB2 ∧
    table_at Board.esp32 10 = 0xB2 ∧ table_at Board.arduino 10 = 0x00 ∧
    (∀ board : Board,
      (initial.interpret_crlf_as_execute = true →
        step board initial 13 = some (initial, [Out.key 0xB2 0])) ∧
      (initial.interpret_crlf_as_execute = false →
        step board initial 13 = some (initial, []))) ∧
    (initial.interpret_crlf_as_execute = true →
      step Board.esp32 initial 10 = some (initial, [Out.key 0xB2 0])) ∧
    (initial.interpret_crlf_as_execute = false →
      step Board.esp32 initial 10 = some (initial, [])) ∧
    step Board.arduino initial 10 = some (initial, []) :=
  line_terminators initial rfl

theorem labelled_rows_eq : labelled_rows = (ascii_to_5110 Board.arduino).enum := by
  decide

/-- C25: the array of `5110KBD.c` has 256 elements, and the lines of the
initializer whose comment names an ASCII code are, in file order, the codes
0, 1, .. 255, each with the element that the program reads at that index: for
every byte `b` there is a line named `b`, and every line named `b` carries the
value read at `ascii_to_5110[b]`; so `8` reads 0x7F, `9` reads 0xFF, `A` and
`a` read 0x0B. -/
theorem arduino_table_indexed_like_ascii :
    (ascii_to_5110 Board.arduino).length = 256 ∧
    labelled_rows = (ascii_to_5110 Board.arduino).enum ∧
    (∀ b : Fin 256, (b.val, table_at Board.arduino b.val) ∈ labelled_rows ∧
      ∀ v, (b.val, v) ∈ labelled_rows → v = table_at Board.arduino b.val) ∧
    table_at Board.arduino 0x38 = 0x7F ∧ table_at Board.arduino 0x39 = 0xFF ∧
    table_at Board.arduino 0x41 = 0x0B ∧ table_at Board.arduino 0x61 = 0x0B := by
  refine ⟨by decide, labelled_rows_eq, fun b => ?_, by decide, by decide, by decide,
    by decide⟩
  rw [labelled_rows_eq]
  have hlen : b.val < (ascii_to_5110 Board.arduino).length := by
    rw [ascii_to_5110_length]; exact b.isLt
  constructor
  · rw [List.mk_mem_enum_iff_getElem?]
    simp [table_at, List.getD_eq_getElem?_getD, List.getElem?_eq_getElem hlen]
  · intro v hv
    rw [List.mk_mem_enum_iff_getElem?] at hv
    simp [table_at, List.getD_eq_getElem?_getD, hv]

theorem ordinary_keys_all (board : Board) :
    ordinary_keys.all (fun b =>
      decide (table_at board b.val ≠ 0x00 ∧ table_at board b.val ≠ KEY_EXECUTE)) = true := by
  cases board <;> decide

/-- On both boards every ordinary key has a table entry that is neither 0x00
nor EXECUTE. -/
theorem ordinary_keys_mapped (board : Board) (b : Fin 256) (hb : b ∈ ordinary_keys) :
    table_at board b.val ≠ 0x00 ∧ table_at board b.val ≠ KEY_EXECUTE :=
  of_decide_eq_true (List.all_eq_true.mp (ordinary_keys_all board) b hb)

/-- C26: on both boards, for every byte among `A` .. `Z`, `a` .. `z`,
`0` .. `9` and `$ & * - + ; : . , ( )`, the table entry read by the program is
not 0x00, and in normal mode (either value of the flag) the byte hands exactly
one pair to the strobe sequence: that entry, with its parity. -/
theorem ordinary_keys_convert (board : Board) (b : Fin 256) (hb : b ∈ ordinary_keys)
    (s : State) (hm : s.parse_key_mode = false) :
    table_at board b.val ≠ 0x00 ∧
      step board s b =
        some (s, [Out.key (table_at board b.val) (odd_parity (table_at board b.val))]) := by
  obtain ⟨h0, he⟩ := ordinary_keys_mapped board b hb
  refine ⟨h0, ?_⟩
  rw [step_normal_mapped board s b hm h0 (Or.inr he), parity_at_eq board b.val b.isLt]

/-- C26, at the digit `8` (56) from the initial globals on the Arduino board:
the single pair (0x7F, 1). -/
theorem ordinary_keys_convert_witness :
    table_at Board.arduino (56 : Fin 256).val ≠ 0x00 ∧
      step Board.arduino initial 56 = some (initial, [Out.key 0x7F 1]) :=
  ordinary_keys_convert Board.arduino 56 (by decide) initial rfl

/-! ## Stale bytes in the buffer -/

/-- A `^` in slot 0 matches no branch of the chain, whatever slot 1 holds. -/
theorem interpret_caret_first (board : Board) (c1 : Nat) (code : Int) (gate : Bool) :
    interpret_parse_key board 94 c1 code gate = ⟨-1, [], gate⟩ :=
  interpret_unrecognised board 94 c1 code gate (by simp [dictionary])

/-- A `^` in slot 1 matches no branch of the chain, whatever slot 0 holds. -/
theorem interpret_caret_second (board : Board) (c0 : Nat) (code : Int) (gate : Bool) :
    interpret_parse_key board c0 94 code gate = ⟨-1, [], gate⟩ :=
  interpret_unrecognised board c0 94 code gate (by simp [dictionary])

/-- The closing `^` when the chain falls through: nothing is done to the
outside, the mode is normal again and the flag is kept. -/
theorem step_close_inert (board : Board) (s : State) (hm : s.parse_key_mode = true)
    (hi : 0 ≤ s.parse_key_buffer_index ∧ s.parse_key_buffer_index < MAX_PARSE_KEY_BUFFER_LENGTH)
    (hp : parsed_on_close board s = ⟨-1, [], s.interpret_crlf_as_execute⟩) :
    ∃ s1, step board s 94 = some (s1, []) ∧ s1.parse_key_mode = false ∧
      s1.parse_key_buffer_index = -1 ∧
      s1.interpret_crlf_as_execute = s.interpret_crlf_as_execute := by
  have hstep := step_parse_close board s 94 hm rfl hi
  rw [hp] at hstep
  exact ⟨_, hstep, rfl, rfl, rfl⟩

/-- C30: from any normal-mode state, whatever the buffer holds, the empty
parsed key `^^` and every one-byte parsed key `^x^` (`x` other than `^`) hand
nothing to the strobe sequence, perform no delay, keep the flag
`interpret_crlf_as_execute` and end in normal mode. -/
theorem short_tokens_are_inert (board : Board) (s : State) (hm : s.parse_key_mode = false) :
    (∃ s1, run board s [94, 94] = some (s1, []) ∧ s1.parse_key_mode = false ∧
      s1.interpret_crlf_as_execute = s.interpret_crlf_as_execute) ∧
    (∀ x : Fin 256, x.val ≠ 94 →
      ∃ s1, run board s [94, x, 94] = some (s1, []) ∧ s1.parse_key_mode = false ∧
        s1.interpret_crlf_as_execute = s.interpret_crlf_as_execute) := by
  have h1 := step_normal_caret board s 94 hm rfl
  constructor
  · have hp : parsed_on_close board
        { s with parse_key_mode := true, parse_key_buffer_index := 0 } =
        ⟨-1, [], s.interpret_crlf_as_execute⟩ := by
      unfold parsed_on_close
      rw [show ((0 : Int).toNat) = 0 from rfl, Buffer.read_write_same _ 0 _ (by decide)]
      exact interpret_caret_first board _ _ _
    obtain ⟨s2, h2, hm2, _, hg2⟩ := step_close_inert board
      { s with parse_key_mode := true, parse_key_buffer_index := 0 } rfl
      (by simp [MAX_PARSE_KEY_BUFFER_LENGTH]) hp
    refine ⟨s2, ?_, hm2, hg2⟩
    rw [run_cons board _ _ _ _ _ h1, run_cons board _ _ _ _ _ h2]
    simp [run, run_with]
  · intro x hx
    have h2 := step_parse_store board
      { s with parse_key_mode := true, parse_key_buffer_index := 0 } x rfl hx
      (by simp [MAX_PARSE_KEY_BUFFER_LENGTH])
    simp [MAX_PARSE_KEY_BUFFER_LENGTH] at h2
    have hp : parsed_on_close board
        { s with parse_key_mode := true
                 parse_key_buffer := s.parse_key_buffer.write 0 x.val
                 parse_key_buffer_index := 1 } =
        ⟨-1, [], s.interpret_crlf_as_execute⟩ := by
      unfold parsed_on_close
      rw [show ((1 : Int).toNat) = 1 from rfl, Buffer.read_write_same _ 1 _ (by decide)]
      exact interpret_caret_second board _ _ _
    obtain ⟨s3, h3, hm3, _, hg3⟩ := step_close_inert board
      { s with parse_key_mode := true
               parse_key_buffer := s.parse_key_buffer.write 0 x.val
               parse_key_buffer_index := 1 } rfl
      (by simp [MAX_PARSE_KEY_BUFFER_LENGTH]) hp
    refine ⟨s3, ?_, hm3, hg3⟩
    rw [run_cons board _ _ _ _ _ h1, run_cons board _ _ _ _ _ h2, run_cons board _ _ _ _ _ h3]
    simp [run, run_with]

/-- C30, on the Arduino board from the state an earlier `^UP^` leaves (the
buffer starts with `U`, `P`, `^`): `^^` and `^U^` do nothing. -/
theorem short_tokens_are_inert_witness :
    (∃ s1, run Board.arduino
        { initial with parse_key_buffer := ((Buffer.zero.write 0 85).write 1 80).write 2 94 }
        [94, 94] = some (s1, []) ∧ s1.parse_key_mode = false ∧
      s1.interpret_crlf_as_execute = true) ∧
    (∃ s1, run Board.arduino
        { initial with parse_key_buffer := ((Buffer.zero.write 0 85).write 1 80).write 2 94 }
        [94, 85, 94] = some (s1, []) ∧ s1.parse_key_mode = false ∧
      s1.interpret_crlf_as_execute = true) :=
  ⟨(short_tokens_are_inert Board.arduino
      { initial with parse_key_buffer := ((Buffer.zero.write 0 85).write 1 80).write 2 94 }
      rfl).1,
    (short_tokens_are_inert Board.arduino
      { initial with parse_key_buffer := ((Buffer.zero.write 0 85).write 1 80).write 2 94 }
      rfl).2 85 (by decide)⟩

/-- In normal mode the outputs of a byte depend on the flag only, and the
globals are kept, the mode and the index apart on `^`. -/
theorem step_normal_shape (board : Board) (s : State) (b : Fin 256)
    (hm : s.parse_key_mode = false) :
    ∃ out, (b.val = 94 → out = []) ∧
      step board s b =
        some (if b.val = 94 then { s with parse_key_mode := true, parse_key_buffer_index := 0 }
          else s, out) ∧
      ∀ t : State, t.parse_key_mode = false →
        t.interpret_crlf_as_execute = s.interpret_crlf_as_execute →
        step board t b =
          some (if b.val = 94 then { t with parse_key_mode := true, parse_key_buffer_index := 0 }
            else t, out) := by
  by_cases hb : b.val = 94
  · refine ⟨[], fun _ => rfl, ?_, fun t ht _ => ?_⟩
    · rw [if_pos hb]; exact step_normal_caret board s b hm hb
    · rw [if_pos hb]; exact step_normal_caret board t b ht hb
  · simp only [if_neg hb]
    by_cases h0 : table_at board b.val = 0
    · exact ⟨[], fun h => absurd h hb, step_normal_unmapped board s b hm h0 hb,
        fun t ht _ => step_normal_unmapped board t b ht h0 hb⟩
    · by_cases hg : s.interpret_crlf_as_execute = true ∨ table_at board b.val ≠ KEY_EXECUTE
      · exact ⟨_, fun h => absurd h hb, step_normal_mapped board s b hm h0 hg,
          fun t ht hgt => step_normal_mapped board t b ht h0 (by rw [hgt]; exact hg)⟩
      · have he : table_at board b.val = KEY_EXECUTE := by
          by_contra hne; exact hg (Or.inr hne)
        have hgate : s.interpret_crlf_as_execute = false := by
          cases hgv : s.interpret_crlf_as_execute
          · rfl
          · exact absurd (Or.inl hgv) hg
        exact ⟨[], fun h => absurd h hb, step_normal_gated board s b hm he hgate,
          fun t ht hgt => step_normal_gated board t b ht he (by rw [hgt]; exact hgate)⟩

/-- One byte from two states that agree but for stale slots of the buffer:
the same outputs, and the new states agree again. -/
theorem step_same_but_stale (board : Board) (s t : State) (b : Fin 256)
    (h : SameButStale s t) :
    ∃ s1 t1 out, step board s b = some (s1, out) ∧ step board t b = some (t1, out) ∧
      SameButStale s1 t1 := by
  obtain ⟨hmode, hidx, hgate, hslots⟩ := h
  by_cases hm : s.parse_key_mode = true
  · have hmt : t.parse_key_mode = true := by rw [← hmode]; exact hm
    obtain ⟨h0, h99, heq⟩ := hslots hm
    have hi : 0 ≤ s.parse_key_buffer_index ∧
        s.parse_key_buffer_index < MAX_PARSE_KEY_BUFFER_LENGTH := by
      simp only [MAX_PARSE_KEY_BUFFER_LENGTH]; omega
    have hit : 0 ≤ t.parse_key_buffer_index ∧
        t.parse_key_buffer_index < MAX_PARSE_KEY_BUFFER_LENGTH := by
      rw [← hidx]; exact hi
    have hlt : s.parse_key_buffer_index.toNat < 100 := by omega
    -- the slots up to the index agree once the byte is stored
    have hread : ∀ (v : Nat) (i : Nat), (i : Int) ≤ s.parse_key_buffer_index →
        (s.parse_key_buffer.write s.parse_key_buffer_index.toNat v).read i =
          (t.parse_key_buffer.write t.parse_key_buffer_index.toNat v).read i := by
      intro v i hle
      rw [← hidx]
      by_cases hii : s.parse_key_buffer_index.toNat = i
      · rw [hii, Buffer.read_write_same _ i _ (by omega),
          Buffer.read_write_same _ i _ (by omega)]
      · rw [Buffer.read_write_ne _ _ i _ hii, Buffer.read_write_ne _ _ i _ hii]
        exact heq i (by omega)
    by_cases hb : b.val = 94
    · have hp : parsed_on_close board s = parsed_on_close board t := by
        unfold parsed_on_close
        by_cases hz : s.parse_key_buffer_index = 0
        · have hzt : t.parse_key_buffer_index = 0 := by rw [← hidx]; exact hz
          rw [hz, hzt, show ((0 : Int).toNat) = 0 from rfl,
            Buffer.read_write_same _ 0 _ (by decide),
            Buffer.read_write_same _ 0 _ (by decide),
            interpret_caret_first, interpret_caret_first, hgate]
        · rw [hread 94 0 (by omega), hread 94 1 (by omega), hgate]
      have hs := step_parse_close board s b hm hb hi
      have ht := step_parse_close board t b hmt hb hit
      rw [← hp] at ht
      refine ⟨_, _, _, hs, ht, rfl, rfl, rfl, fun hmode1 => ?_⟩
      simp at hmode1
    · have hs := step_parse_store board s b hm hb hi
      have ht := step_parse_store board t b hmt hb hit
      refine ⟨_, _, [], hs, ht, hmode, ?_, hgate, fun _ => ⟨?_, ?_, ?_⟩⟩
      · show (if s.parse_key_buffer_index + 1 ≥ MAX_PARSE_KEY_BUFFER_LENGTH then _ else _) =
          (if t.parse_key_buffer_index + 1 ≥ MAX_PARSE_KEY_BUFFER_LENGTH then _ else _)
        rw [hidx]
      · show 0 ≤ (if s.parse_key_buffer_index + 1 ≥ MAX_PARSE_KEY_BUFFER_LENGTH then _ else _)
        simp only [MAX_PARSE_KEY_BUFFER_LENGTH]; split <;> omega
      · show (if s.parse_key_buffer_index + 1 ≥ MAX_PARSE_KEY_BUFFER_LENGTH then _ else _) ≤ 99
        simp only [MAX_PARSE_KEY_BUFFER_LENGTH]; split <;> omega
      · intro i hlti
        have hle : (i : Int) ≤ s.parse_key_buffer_index := by
          have hlti1 : (i : Int) < (if s.parse_key_buffer_index + 1 ≥ MAX_PARSE_KEY_BUFFER_LENGTH
              then s.parse_key_buffer_index + 1 - 1 else s.parse_key_buffer_index + 1) := hlti
          simp only [MAX_PARSE_KEY_BUFFER_LENGTH] at hlti1
          split at hlti1 <;> omega
        exact hread b.val i hle
  · have hm0 : s.parse_key_mode = false := by simpa using hm
    have hmt : t.parse_key_mode = false := by rw [← hmode]; exact hm0
    obtain ⟨out, _, hs, hall⟩ := step_normal_shape board s b hm0
    have ht := hall t hmt hgate.symm
    refine ⟨_, _, out, hs, ht, ?_⟩
    by_cases hb : b.val = 94
    · simp only [if_pos hb]
      refine ⟨rfl, rfl, hgate, fun _ => ⟨le_refl _, ?_, fun i hi0 => ?_⟩⟩
      · show (0 : Int) ≤ 99
        decide
      · have hi1 : (i : Int) < 0 := hi0
        omega
    · simp only [if_neg hb]
      exact ⟨hmode, hidx, hgate, fun hmode1 => absurd hmode1 hm⟩

/-- A whole stream from two states that agree but for stale slots of the
buffer: the same outputs, and the final states agree again. -/
theorem run_same_but_stale (board : Board) (input : List (Fin 256)) :
    ∀ s t, SameButStale s t →
      ∃ s1 t1 out, run board s input = some (s1, out) ∧ run board t input = some (t1, out) ∧
        SameButStale s1 t1 := by
  induction input with
  | nil => intro s t h; exact ⟨s, t, [], rfl, rfl, h⟩
  | cons b rest ih =>
    intro s t h
    obtain ⟨s1, t1, out1, hs, ht, h1⟩ := step_same_but_stale board s t b h
    obtain ⟨s2, t2, out2, hs2, ht2, h2⟩ := ih s1 t1 h1
    refine ⟨s2, t2, out1 ++ out2, ?_, ?_, h2⟩
    · rw [run_cons board s s1 b rest out1 hs, hs2]; rfl
    · rw [run_cons board t t1 b rest out1 ht, ht2]; rfl

/-- C29: for any two normal-mode states that differ in the contents of
`parse_key_buffer` only, every stream is processed from both, with the same
outputs (pairs for the strobe sequence and delays, in the same order) and the
same final mode, index and flag; the stream being arbitrary, the same holds
after each of its prefixes, so the flag takes the same values throughout. -/
theorem stale_bytes_never_leak (board : Board) (s t : State) (input : List (Fin 256))
    (hs : s.parse_key_mode = false) (ht : t.parse_key_mode = false)
    (hidx : s.parse_key_buffer_index = t.parse_key_buffer_index)
    (hgate : s.interpret_crlf_as_execute = t.interpret_crlf_as_execute) :
    ∃ s1 t1 out, run board s input = some (s1, out) ∧ run board t input = some (t1, out) ∧
      s1.parse_key_mode = t1.parse_key_mode ∧
      s1.parse_key_buffer_index = t1.parse_key_buffer_index ∧
      s1.interpret_crlf_as_execute = t1.interpret_crlf_as_execute := by
  have h : SameButStale s t :=
    ⟨hs.trans ht.symm, hidx, hgate, fun hmode => absurd (hs.symm.trans hmode) (by decide)⟩
  obtain ⟨s1, t1, out, h1, h2, hm1, hi1, hg1, _⟩ := run_same_but_stale board input s t h
  exact ⟨s1, t1, out, h1, h2, hm1, hi1, hg1⟩

/-- C29, on the Arduino board: the initial globals and the initial globals
with `E`, `0`, `^` left in the buffer, on the stream `^^`, carriage return,
`^U^`, `A`. -/
theorem stale_bytes_never_leak_witness :
    ∃ s1 t1 out,
      run Board.arduino initial [94, 94, 13, 94, 85, 94, 65] = some (s1, out) ∧
      run Board.arduino
        { initial with parse_key_buffer := ((Buffer.zero.write 0 69).write 1 48).write 2 94 }
        [94, 94, 13, 94, 85, 94, 65] = some (t1, out) ∧
      s1.parse_key_mode = t1.parse_key_mode ∧
      s1.parse_key_buffer_index = t1.parse_key_buffer_index ∧
      s1.interpret_crlf_as_execute = t1.interpret_crlf_as_execute :=
  stale_bytes_never_leak Board.arduino initial
    { initial with parse_key_buffer := ((Buffer.zero.write 0 69).write 1 48).write 2 94 }
    [94, 94, 13, 94, 85, 94, 65] rfl rfl rfl rfl

/-! ## Overflow of the buffer -/

theorem getD_map_append_left (w : List (Fin 256)) (b : Fin 256) (i : Nat) (hi : i < w.length) :
    ((w ++ [b]).map Fin.val).getD i 0 = (w.map Fin.val).getD i 0 := by
  simp [List.getD_eq_getElem?_getD, List.getElem?_append_left, hi]

theorem getD_map_append_last (w : List (Fin 256)) (b : Fin 256) :
    ((w ++ [b]).map Fin.val).getD w.length 0 = b.val := by
  simp [List.getD_eq_getElem?_getD]

/-- One more byte other than `^` of a parsed key: nothing is done to the
outside; the byte goes to the slot after the stored ones, or to slot 99 once
the buffer is full. -/
theorem step_stored (board : Board) (s : State) (w : List (Fin 256)) (b : Fin 256)
    (h : Stored w s) (hb : b.val ≠ 94) :
    ∃ s1, step board s b = some (s1, []) ∧ Stored (w ++ [b]) s1 ∧
      s1.interpret_crlf_as_execute = s.interpret_crlf_as_execute := by
  obtain ⟨hm, hidx, hhead, hlast⟩ := h
  have hi : 0 ≤ s.parse_key_buffer_index ∧
      s.parse_key_buffer_index < MAX_PARSE_KEY_BUFFER_LENGTH := by
    simp only [MAX_PARSE_KEY_BUFFER_LENGTH]; omega
  have hnat : s.parse_key_buffer_index.toNat = min w.length 99 := by omega
  refine ⟨_, step_parse_store board s b hm hb hi, ⟨hm, ?_, ?_, ?_⟩, rfl⟩
  · show (if s.parse_key_buffer_index + 1 ≥ MAX_PARSE_KEY_BUFFER_LENGTH then _ else _) = _
    simp only [MAX_PARSE_KEY_BUFFER_LENGTH, List.length_append, List.length_singleton]
    split <;> omega
  · intro i hil hi99
    show (s.parse_key_buffer.write s.parse_key_buffer_index.toNat b.val).read i = _
    rw [hnat]
    simp only [List.length_append, List.length_singleton] at hil
    by_cases hiw : i < w.length
    · rw [Buffer.read_write_ne _ _ i _ (by omega), getD_map_append_left w b i hiw]
      exact hhead i hiw hi99
    · have hiw1 : i = w.length := by omega
      subst hiw1
      rw [show min w.length 99 = w.length by omega, Buffer.read_write_same _ _ _ (by omega),
        getD_map_append_last]
  · intro h100
    show (s.parse_key_buffer.write s.parse_key_buffer_index.toNat b.val).read 99 = _
    simp only [List.length_append, List.length_singleton] at h100 ⊢
    rw [hnat, show min w.length 99 = 99 by omega, Buffer.read_write_same _ 99 _ (by decide),
      show w.length + 1 - 1 = w.length by omega, getD_map_append_last]

/-- Any number of bytes other than `^` of a parsed key, one after the
other. -/
theorem run_stored (board : Board) (rest : List (Fin 256)) :
    ∀ (w : List (Fin 256)) (s : State), Stored w s → (∀ b ∈ rest, b.val ≠ 94) →
      ∃ s1, run board s rest = some (s1, []) ∧ Stored (w ++ rest) s1 ∧
        s1.interpret_crlf_as_execute = s.interpret_crlf_as_execute := by
  induction rest with
  | nil => intro w s h _; exact ⟨s, rfl, by simpa using h, rfl⟩
  | cons b rest ih =>
    intro w s h hrest
    obtain ⟨s1, hstep, h1, hg1⟩ := step_stored board s w b h (hrest b (List.mem_cons_self _ _))
    obtain ⟨s2, hrun, h2, hg2⟩ :=
      ih (w ++ [b]) s1 h1 (fun c hc => hrest c (List.mem_cons_of_mem _ hc))
    refine ⟨s2, ?_, by simpa using h2, hg2.trans hg1⟩
    rw [run_cons board s s1 b rest [] hstep, hrun]; rfl

/-- C28: in parse-key mode, once `n ≥ 100` bytes other than `^` have been
received since the opening `^`, slots 0 .. 98 of the buffer hold the first 99
of them, slot 99 holds the most recent one, the index is 99, every store was
within the buffer and nothing was done to the outside (no pair, no delay);
the flag is kept. -/
theorem overflow_keeps_head_overwrites_tail (board : Board) (s : State)
    (w : List (Fin 256)) (hm : s.parse_key_mode = false) (hw : ∀ b ∈ w, b.val ≠ 94)
    (hn : 100 ≤ w.length) :
    ∃ s1, run board s (94 :: w) = some (s1, []) ∧
      s1.parse_key_mode = true ∧ s1.parse_key_buffer_index = 99 ∧
      (∀ i, i < 99 → s1.parse_key_buffer.read i = (w.map Fin.val).getD i 0) ∧
      s1.parse_key_buffer.read 99 = (w.map Fin.val).getD (w.length - 1) 0 ∧
      s1.interpret_crlf_as_execute = s.interpret_crlf_as_execute := by
  have h0 := step_normal_caret board s 94 hm rfl
  have hstored : Stored [] { s with parse_key_mode := true, parse_key_buffer_index := 0 } :=
    ⟨rfl, rfl, fun i hi _ => absurd hi (Nat.not_lt_zero i),
      fun h => absurd h (by decide)⟩
  obtain ⟨s1, hrun, ⟨hm1, hidx1, hhead1, hlast1⟩, hg1⟩ := run_stored board w [] _ hstored hw
  simp only [List.nil_append] at hidx1 hhead1 hlast1
  refine ⟨s1, ?_, hm1, ?_, fun i hi => hhead1 i (by omega) hi, hlast1 hn, hg1⟩
  · rw [run_cons board s _ 94 w [] h0, hrun]; rfl
  · rw [hidx1]; omega

/-- C28, on the Arduino board from the initial globals, at 99 letters `A`
followed by the letters `B` and `C` (101 bytes, of which `B` is
overwritten). -/
theorem overflow_keeps_head_overwrites_tail_witness :
    ∃ s1, run Board.arduino initial (94 :: (List.replicate 99 65 ++ [66, 67])) =
        some (s1, []) ∧
      s1.parse_key_mode = true ∧ s1.parse_key_buffer_index = 99 ∧
      (∀ i, i < 99 → s1.parse_key_buffer.read i =
        ((List.replicate 99 (65 : Fin 256) ++ [66, 67]).map Fin.val).getD i 0) ∧
      s1.parse_key_buffer.read 99 =
        ((List.replicate 99 (65 : Fin 256) ++ [66, 67]).map Fin.val).getD
          ((List.replicate 99 (65 : Fin 256) ++ [66, 67]).length - 1) 0 ∧
      s1.interpret_crlf_as_execute = initial.interpret_crlf_as_execute :=
  overflow_keeps_head_overwrites_tail Board.arduino initial
    (List.replicate 99 65 ++ [66, 67]) rfl
    (fun b hb => by
      rcases List.mem_append.mp hb with h | h
      · rw [List.eq_of_mem_replicate h]; decide
      · simp only [List.mem_cons, List.mem_singleton, List.not_mem_nil, or_false] at h
        rcases h with rfl | rfl <;> decide)
    (by simp)

/-! ## The two boards -/

/-- The two tables differ at the line feed (10) only. -/
theorem tables_differ_at_line_feed :
    ascii_to_5110 Board.esp32 = (ascii_to_5110 Board.arduino).set 10 KEY_EXECUTE := by
  decide

theorem table_at_boards (i : Nat) (hi : i ≠ 10) :
    table_at Board.arduino i = table_at Board.esp32 i := by
  unfold table_at
  rw [tables_differ_at_line_feed]
  simp [List.getD_eq_getElem?_getD, List.getElem?_set, Ne.symm hi]

/-- The two chains differ on `SU` and `SD` only. -/
theorem interpret_boards (c0 c1 : Nat) (code : Int) (gate : Bool)
    (hu : ¬ (c0 = 83 ∧ c1 = 85)) (hd : ¬ (c0 = 83 ∧ c1 = 68)) :
    interpret_parse_key Board.arduino c0 c1 code gate =
      interpret_parse_key Board.esp32 c0 c1 code gate := by
  have hu1 : ¬ (Board.arduino = Board.arduino ∧ c0 = 83 ∧ c1 = 85) := fun h => hu h.2
  have hd1 : ¬ (Board.arduino = Board.arduino ∧ c0 = 83 ∧ c1 = 68) := fun h => hd h.2
  have hu2 : ¬ (Board.esp32 = Board.arduino ∧ c0 = 83 ∧ c1 = 85) := fun h => hu h.2
  have hd2 : ¬ (Board.esp32 = Board.arduino ∧ c0 = 83 ∧ c1 = 68) := fun h => hd h.2
  unfold interpret_parse_key
  rw [if_neg hu1, if_neg hd1, if_neg hu2, if_neg hd2]

/-- In normal mode a byte other than the line feed does the same on both
boards. -/
theorem step_normal_boards (s : State) (b : Fin 256) (hm : s.parse_key_mode = false)
    (hb : b.val ≠ 10) : step Board.arduino s b = step Board.esp32 s b := by
  have ht := table_at_boards b.val hb
  have hp : parity_at Board.arduino b.val = parity_at Board.esp32 b.val := by
    rw [parity_at_eq _ _ b.isLt, parity_at_eq _ _ b.isLt, ht]
  by_cases h0 : table_at Board.arduino b.val = 0
  · by_cases h94 : b.val = 94
    · rw [step_normal_caret _ s b hm h94, step_normal_caret _ s b hm h94]
    · rw [step_normal_unmapped _ s b hm h0 h94,
        step_normal_unmapped _ s b hm (ht ▸ h0) h94]
  · by_cases hg : s.interpret_crlf_as_execute = true ∨
        table_at Board.arduino b.val ≠ KEY_EXECUTE
    · rw [step_normal_mapped _ s b hm h0 hg,
        step_normal_mapped _ s b hm (ht ▸ h0) (ht ▸ hg), ht, hp]
    · have he : table_at Board.arduino b.val = KEY_EXECUTE := by
        by_contra hne; exact hg (Or.inr hne)
      have hgate : s.interpret_crlf_as_execute = false := by
        cases hgv : s.interpret_crlf_as_execute
        · rfl
        · exact absurd (Or.inl hgv) hg
      rw [step_normal_gated _ s b hm he hgate, step_normal_gated _ s b hm (ht ▸ he) hgate]

/-- A body of at most two bytes that is not `SU` or `SD`, stored at the start
of the buffer: slots 0 and 1 do not read `SU` or `SD` once the closing `^` is
stored. -/
theorem at_position_close (s : State) (body : List (Fin 256))
    (h : AtPosition (some body) s) :
    ¬ ((s.parse_key_buffer.write s.parse_key_buffer_index.toNat 94).read 0 = 83 ∧
        (s.parse_key_buffer.write s.parse_key_buffer_index.toNat 94).read 1 = 85) ∧
    ¬ ((s.parse_key_buffer.write s.parse_key_buffer_index.toNat 94).read 0 = 83 ∧
        (s.parse_key_buffer.write s.parse_key_buffer_index.toNat 94).read 1 = 68) := by
  obtain ⟨_, hlen, hsa, hshort, hfull, hreads⟩ := h
  match body, hlen, hsa, hshort, hfull, hreads with
  | [], _, _, hshort, _, _ =>
    have hidx : s.parse_key_buffer_index = 0 := hshort (by decide)
    rw [hidx, show ((0 : Int).toNat) = 0 from rfl, Buffer.read_write_same _ 0 _ (by decide)]
    exact ⟨fun h => absurd h.1 (by decide), fun h => absurd h.1 (by decide)⟩
  | [x], _, _, hshort, _, _ =>
    have hidx : s.parse_key_buffer_index = 1 := hshort (by simp)
    rw [hidx, show ((1 : Int).toNat) = 1 from rfl, Buffer.read_write_same _ 1 _ (by decide)]
    exact ⟨fun h => absurd h.2 (by decide), fun h => absurd h.2 (by decide)⟩
  | [x, y], _, hsa, _, hfull, hreads =>
    obtain ⟨h2, h99⟩ := hfull rfl
    have hn : s.parse_key_buffer_index.toNat ≠ 0 ∧ s.parse_key_buffer_index.toNat ≠ 1 := by
      omega
    have h0 : s.parse_key_buffer.read 0 = x.val := hreads 0 (by simp)
    have h1 : s.parse_key_buffer.read 1 = y.val := hreads 1 (by simp)
    rw [Buffer.read_write_ne _ _ 0 _ hn.1, Buffer.read_write_ne _ _ 1 _ hn.2, h0, h1]
    simp only [shift_arrow, Bool.or_eq_false_iff, decide_eq_false_iff_not] at hsa
    constructor
    · rintro ⟨hx, hy⟩
      exact hsa.1 (by rw [Fin.ext (a := x) (b := 83) hx, Fin.ext (a := y) (b := 85) hy])
    · rintro ⟨hx, hy⟩
      exact hsa.2 (by rw [Fin.ext (a := x) (b := 83) hx, Fin.ext (a := y) (b := 68) hy])
  | _ :: _ :: _ :: _, hlen, _, _, _, _ => exact absurd hlen (by simp)

/-- One more byte of a parsed key: the globals follow the position. -/
theorem follows_store (s : State) (body : List (Fin 256)) (b : Fin 256)
    (h : Follows (some body) s) :
    Follows (some (if body.length < 2 then body ++ [b] else body))
      { s with
        parse_key_buffer := s.parse_key_buffer.write s.parse_key_buffer_index.toNat b.val
        parse_key_buffer_index :=
          if s.parse_key_buffer_index + 1 ≥ MAX_PARSE_KEY_BUFFER_LENGTH
          then s.parse_key_buffer_index + 1 - 1 else s.parse_key_buffer_index + 1 } := by
  obtain ⟨hm, hlen, hshort, hfull, hreads⟩ := h
  by_cases hl : body.length < 2
  · simp only [hl, if_true]
    have hidx := hshort hl
    refine ⟨hm, ?_, ?_, ?_, ?_⟩
    · simp only [List.length_append, List.length_singleton]; omega
    · intro hl1
      simp only [List.length_append, List.length_singleton] at hl1 ⊢
      show (if s.parse_key_buffer_index + 1 ≥ MAX_PARSE_KEY_BUFFER_LENGTH then _ else _) = _
      simp only [MAX_PARSE_KEY_BUFFER_LENGTH]
      split <;> omega
    · intro hl2
      simp only [List.length_append, List.length_singleton] at hl2
      show 2 ≤ (if s.parse_key_buffer_index + 1 ≥ MAX_PARSE_KEY_BUFFER_LENGTH then _ else _) ∧
        (if s.parse_key_buffer_index + 1 ≥ MAX_PARSE_KEY_BUFFER_LENGTH then _ else _) ≤ 99
      simp only [MAX_PARSE_KEY_BUFFER_LENGTH]
      split <;> omega
    · intro i hi
      simp only [List.length_append, List.length_singleton] at hi
      show (s.parse_key_buffer.write s.parse_key_buffer_index.toNat b.val).read i = _
      have hnat : s.parse_key_buffer_index.toNat = body.length := by omega
      rw [hnat]
      by_cases hib : i < body.length
      · rw [Buffer.read_write_ne _ _ i _ (by omega), getD_map_append_left body b i hib]
        exact hreads i hib
      · have hie : i = body.length := by omega
        subst hie
        rw [Buffer.read_write_same _ _ _ (by omega), getD_map_append_last]
  · simp only [hl, if_false]
    have hl2 : body.length = 2 := by omega
    obtain ⟨h2, h99⟩ := hfull hl2
    refine ⟨hm, hlen, fun h => absurd h hl, fun _ => ?_, ?_⟩
    · show 2 ≤ (if s.parse_key_buffer_index + 1 ≥ MAX_PARSE_KEY_BUFFER_LENGTH then _ else _) ∧
        (if s.parse_key_buffer_index + 1 ≥ MAX_PARSE_KEY_BUFFER_LENGTH then _ else _) ≤ 99
      simp only [MAX_PARSE_KEY_BUFFER_LENGTH]
      split <;> omega
    · intro i hi
      show (s.parse_key_buffer.write s.parse_key_buffer_index.toNat b.val).read i = _
      rw [Buffer.read_write_ne _ _ i _ (by omega)]
      exact hreads i hi

/-- A stream without line feed outside parsed keys and without closed parsed
key starting with `SU` or `SD` is processed alike by the two programs, from
any globals at the starting position: the same outputs and the same final
globals. -/
theorem run_boards_portable (input : List (Fin 256)) :
    ∀ (pos : Option (List (Fin 256))) (s : State), Follows pos s →
      portable pos input = true →
      ∃ s1 out, run Board.arduino s input = some (s1, out) ∧
        run Board.esp32 s input = some (s1, out) := by
  induction input with
  | nil => intro pos s _ _; exact ⟨s, [], rfl, rfl⟩
  | cons b rest ih =>
    intro pos s hpos hport
    have glue : ∀ (s1 : State) (out1 : List Out) (pos1 : Option (List (Fin 256))),
        step Board.arduino s b = some (s1, out1) → step Board.esp32 s b = some (s1, out1) →
        Follows pos1 s1 → portable pos1 rest = true →
        ∃ s2 out, run Board.arduino s (b :: rest) = some (s2, out) ∧
          run Board.esp32 s (b :: rest) = some (s2, out) := by
      intro s1 out1 pos1 ha he hp1 hc1
      obtain ⟨s2, out2, hra, hre⟩ := ih pos1 s1 hp1 hc1
      refine ⟨s2, out1 ++ out2, ?_, ?_⟩
      · rw [run_cons _ s s1 b rest out1 ha, hra]; rfl
      · rw [run_cons _ s s1 b rest out1 he, hre]; rfl
    cases pos with
    | none =>
      have hm : s.parse_key_mode = false := hpos
      by_cases hb : b.val = 94
      · simp only [portable, hb, if_true] at hport
        refine glue _ [] (some []) (step_normal_caret _ s b hm hb)
          (step_normal_caret _ s b hm hb) ?_ hport
        exact ⟨rfl, by decide, fun _ => rfl, fun h => absurd h (by decide),
          fun i hi => absurd hi (Nat.not_lt_zero i)⟩
      · simp only [portable, hb, if_false, Bool.and_eq_true, decide_eq_true_eq] at hport
        obtain ⟨hlf, hrest⟩ := hport
        obtain ⟨out, _, hs, _⟩ := step_normal_shape Board.arduino s b hm
        rw [if_neg hb] at hs
        exact glue s out none hs (by rw [← step_normal_boards s b hm hlf]; exact hs) hm hrest
    | some body =>
      have hm : s.parse_key_mode = true := hpos.1
      have hi : 0 ≤ s.parse_key_buffer_index ∧
          s.parse_key_buffer_index < MAX_PARSE_KEY_BUFFER_LENGTH := by
        obtain ⟨_, hlen, hshort, hfull, _⟩ := hpos
        simp only [MAX_PARSE_KEY_BUFFER_LENGTH]
        by_cases hl : body.length < 2
        · have := hshort hl; omega
        · have := hfull (by omega); omega
      by_cases hb : b.val = 94
      · simp only [portable, hb, if_true, Bool.and_eq_true, Bool.not_eq_true'] at hport
        obtain ⟨hsa, hrest⟩ := hport
        have hat : AtPosition (some body) s :=
          ⟨hpos.1, hpos.2.1, hsa, hpos.2.2.1, hpos.2.2.2.1, hpos.2.2.2.2⟩
        obtain ⟨hu, hd⟩ := at_position_close s body hat
        have hp : parsed_on_close Board.arduino s = parsed_on_close Board.esp32 s :=
          interpret_boards _ _ _ _ hu hd
        have ha := step_parse_close Board.arduino s b hm hb hi
        have he := step_parse_close Board.esp32 s b hm hb hi
        rw [← hp] at he
        exact glue _ _ none ha he rfl hrest
      · simp only [portable, hb, if_false] at hport
        exact glue _ [] _ (step_parse_store _ s b hm hb hi) (step_parse_store _ s b hm hb hi)
          (follows_store s body b hpos) hport

/-- C31: for every stream in which no line feed (0x0A) is received in normal
mode and no parsed key (closed by its `^`) has `SU` or `SD` as its first two
bytes, the program of `5110KBD.c` and the program of the ESP32, started from
the same normal-mode globals (the initial globals in particular), hand the
same pairs to the strobe sequence and perform the same delays, in the same
order, and end with the same mode and the same flag
`interpret_crlf_as_execute` (indeed with the same globals). -/
theorem variants_differ_only_on_line_feed_and_shift_arrows (s : State)
    (input : List (Fin 256)) (hm : s.parse_key_mode = false)
    (h : portable none input = true) :
    ∃ sa se out, run Board.arduino s input = some (sa, out) ∧
      run Board.esp32 s input = some (se, out) ∧
      sa.parse_key_mode = se.parse_key_mode ∧
      sa.interpret_crlf_as_execute = se.interpret_crlf_as_execute ∧
      sa = se := by
  obtain ⟨s1, out, ha, he⟩ := run_boards_portable input none s hm h
  exact ⟨s1, s1, out, ha, he, rfl, rfl, rfl⟩

/-- C31, from the initial globals: at the stream `^UP^`, `A`, `^E0^`, carriage
return, `^S^`, `^D3^`, and at a stream that ends inside an unclosed `^SU`
after a line feed inside a parsed key. -/
theorem variants_differ_only_on_line_feed_and_shift_arrows_witness :
    (∃ sa se out,
      run Board.arduino initial
        [94, 85, 80, 94, 65, 94, 69, 48, 94, 13, 94, 83, 94, 94, 68, 51, 94] = some (sa, out) ∧
      run Board.esp32 initial
        [94, 85, 80, 94, 65, 94, 69, 48, 94, 13, 94, 83, 94, 94, 68, 51, 94] = some (se, out) ∧
      sa.parse_key_mode = se.parse_key_mode ∧
      sa.interpret_crlf_as_execute = se.interpret_crlf_as_execute ∧
      sa = se) ∧
    (∃ sa se out,
      run Board.arduino initial [94, 90, 10, 94, 65, 94, 83, 85] = some (sa, out) ∧
      run Board.esp32 initial [94, 90, 10, 94, 65, 94, 83, 85] = some (se, out) ∧
      sa.parse_key_mode = se.parse_key_mode ∧
      sa.interpret_crlf_as_execute = se.interpret_crlf_as_execute ∧
      sa = se) :=
  ⟨variants_differ_only_on_line_feed_and_shift_arrows initial
      [94, 85, 80, 94, 65, 94, 69, 48, 94, 13, 94, 83, 94, 94, 68, 51, 94] rfl (by decide),
    variants_differ_only_on_line_feed_and_shift_arrows initial
      [94, 90, 10, 94, 65, 94, 83, 85] rfl (by decide)⟩

/-! ## The nine-line word -/

/-- The lines driven by the first part of the strobe sequence, counted for
every scan code and both parities. -/
theorem asserted_counts : ∀ (n : Fin 256) (p : Fin 2),
    asserted (pin_exec idle (strobe_assert n.val p.val)) data_lines + popcount n.val = 8 ∧
    asserted (pin_exec idle (strobe_assert n.val p.val)) nine_lines =
      asserted (pin_exec idle (strobe_assert n.val p.val)) data_lines +
        (if p.val = 0 then 1 else 0) := by
  decide!

/-- For a scan code with its odd-parity bit, the lines driven while the strobe
is on: `8 - popcount` data lines, the parity line exactly when the popcount is
even, hence an odd number of the nine lines. -/
theorem word_parity_of_pair (c p : Int) (h : OddParityPair c p) :
    asserted (pin_exec idle (strobe_assert c p)) data_lines = 8 - popcount c.toNat ∧
    (pin_exec idle (strobe_assert c p) Pin.PIN_KBD_P = PinMode.OUTPUT ↔
      popcount c.toNat % 2 = 0) ∧
    asserted (pin_exec idle (strobe_assert c p)) nine_lines % 2 = 1 ∧
    (9 - asserted (pin_exec idle (strobe_assert c p)) nine_lines) % 2 = 0 := by
  obtain ⟨h0, h255, hp01, hpar⟩ := h
  have hlt : c.toNat < 256 := by omega
  have hc : ((c.toNat : Nat) : Int) = c := Int.toNat_of_nonneg h0
  have key : ∀ q : Fin 2, p = ((q.val : Nat) : Int) →
      asserted (pin_exec idle (strobe_assert c p)) data_lines + popcount c.toNat = 8 ∧
      asserted (pin_exec idle (strobe_assert c p)) nine_lines =
        asserted (pin_exec idle (strobe_assert c p)) data_lines +
          (if q.val = 0 then 1 else 0) ∧
      (pin_exec idle (strobe_assert c p) Pin.PIN_KBD_P = PinMode.OUTPUT ↔ q.val = 0) := by
    intro q hq
    have h1 := asserted_counts ⟨c.toNat, hlt⟩ q
    have h2 := (strobe_assert_pins ⟨c.toNat, hlt⟩ q).2.1
    simp only [hc, ← hq] at h1 h2
    exact ⟨h1.1, h1.2, h2⟩
  rcases hp01 with hp | hp
  · obtain ⟨hd, hn, hpl⟩ := key 0 (by rw [hp]; rfl)
    have heven : popcount c.toNat % 2 = 0 := by
      have : ¬ popcount c.toNat % 2 = 1 := fun h1 => by
        have := hpar.mpr h1
        rw [hp] at this
        exact absurd this (by decide)
      omega
    simp only [Fin.val_zero, if_true] at hn
    refine ⟨by omega, ⟨fun _ => heven, fun _ => hpl.mpr rfl⟩, by omega, by omega⟩
  · obtain ⟨hd, hn, hpl⟩ := key 1 (by rw [hp]; rfl)
    have hodd : popcount c.toNat % 2 = 1 := hpar.mp hp
    simp only [Fin.val_one, one_ne_zero, if_false] at hn
    refine ⟨by omega, ⟨fun hout => ?_, fun heven => by omega⟩, by omega, by omega⟩
    exact absurd (hpl.mp hout) (by decide)

/-- C32: for every pair handed to the strobe sequence on any stream processed
from the initial globals, on either board, while the strobe is on the number
of driven lines among the eight data lines and the parity line is odd (and the
number of released ones even): `8 - popcount` data lines are driven, and the
parity line is driven exactly when the popcount of the scan code is even. -/
theorem nine_line_word_has_odd_parity (board : Board) (input : List (Fin 256)) :
    ∃ s out, run board initial input = some (s, out) ∧
      ∀ c p, (c, p) ∈ events out →
        asserted (pin_exec idle (strobe_assert c p)) data_lines = 8 - popcount c.toNat ∧
        (pin_exec idle (strobe_assert c p) Pin.PIN_KBD_P = PinMode.OUTPUT ↔
          popcount c.toNat % 2 = 0) ∧
        asserted (pin_exec idle (strobe_assert c p)) nine_lines % 2 = 1 ∧
        (9 - asserted (pin_exec idle (strobe_assert c p)) nine_lines) % 2 = 0 := by
  obtain ⟨s, out, hrun, _, hgood⟩ := run_invariant board input initial initial_in_bounds
  exact ⟨s, out, hrun, fun c p hmem =>
    word_parity_of_pair c p (hgood c p ((mem_events c p out).mp hmem))⟩

/-! ## Distinct keys -/

theorem upper_keys_codes_nodup (board : Board) :
    (upper_keys.map (fun b => table_at board b.val)).Nodup := by
  cases board <;> decide

/-- C33: on both boards, restricted to the letters `A` .. `Z`, the digits
`0` .. `9` and `$ & * - + ; : . , ( )`, the code table is injective: two
different such bytes read two different scan codes. -/
theorem distinct_keys_never_collide (board : Board) (a b : Fin 256)
    (ha : a ∈ upper_keys) (hb : b ∈ upper_keys) (hab : a ≠ b) :
    table_at board a.val ≠ table_at board b.val := fun h =>
  hab (List.inj_on_of_nodup_map (upper_keys_codes_nodup board) ha hb h)

/-- C33, at the letters `A` and `Q` on the Arduino board, whose scan codes
0x0B and 0x0D are close. -/
theorem distinct_keys_never_collide_witness :
    table_at Board.arduino (65 : Fin 256).val ≠ table_at Board.arduino (81 : Fin 256).val :=
  distinct_keys_never_collide Board.arduino 65 81 (by decide) (by decide) (by decide)

end KBD5110
